import Mathlib

/-!
Verification of the spreadsheet-import heuristic of the `sadia` repository.

The repository's import logic lives in three places:
* the import service (`importWorkersFromExcel`, `importProductsFromExcel`,
  `parseExcelDate`), reached through thin controller wrappers;
* a duplicate worker import (`importWorkers`) in `worker.controller.js`
  that starts from a fixed default column map.

This file gives a shallow embedding of that code.  The workbook decoding
(`xlsx.read` / `sheet_to_json` with `header: 1, defval: ''`) is external
library code; the embedded functions therefore take the decoded grid — a
list of rows, each a list of untyped cells — as input.  A cell is either a
string or a number; absent cells behave like the empty string (the service
passes `defval: ''`).  JavaScript numbers are modelled as exact rationals
in a canonical-fraction representation (`Q`), since every numeric literal
handled by the import (salaries, date serials, thresholds) is a finite
decimal; `String(n)` followed by `parseFloat` round-trips in JavaScript,
and the same holds in this model for finite decimals.  The persistence
layer (`findOne` / `create` / `update` on Worker, Product, Category) is
modelled as an explicit in-memory list of records scanned in insertion
order, an explicit next-id counter, and a per-row failure oracle that says
whether the row's create-or-update call throws (mirroring the per-row
`try`/`catch`).
-/

set_option maxRecDepth 4000

/-! ## Exact rationals in canonical form

`Q` plays the role of a JavaScript number.  All operations normalise, so
values built by the embedded code are always reduced fractions with a
positive denominator, and structural equality coincides with value
equality on them. -/

structure Q where
  num : Int
  den : Nat
  deriving DecidableEq, Repr

/-- Normalising constructor: `qMk n d` is the reduced form of `n / d`. -/
def qMk (n : Int) (d : Nat) : Q :=
  if d = 0 then ⟨0, 1⟩
  else
    let g := Nat.gcd n.natAbs d
    ⟨Int.ediv n (Int.ofNat g), d / g⟩

def qOfInt (n : Int) : Q := ⟨n, 1⟩

def qOfNat (n : Nat) : Q := ⟨Int.ofNat n, 1⟩

def qAdd (a b : Q) : Q := qMk (a.num * Int.ofNat b.den + b.num * Int.ofNat a.den) (a.den * b.den)

def qSub (a b : Q) : Q := qMk (a.num * Int.ofNat b.den - b.num * Int.ofNat a.den) (a.den * b.den)

def qMul (a b : Q) : Q := qMk (a.num * b.num) (a.den * b.den)

def qNeg (a : Q) : Q := ⟨-a.num, a.den⟩

/-- Is the value strictly positive?  (Canonical values have `den > 0`.) -/
def qIsPos (a : Q) : Bool := 0 < a.num

/-- Is the value zero? -/
def qIsZero (a : Q) : Bool := a.num = 0

/-- Floor of a rational with positive denominator. -/
def qFloor (a : Q) : Int := Int.ediv a.num (Int.ofNat a.den)

/-- `Math.round`: round half toward positive infinity. -/
def jsRound (a : Q) : Int := qFloor (qAdd a (qMk 1 2))

/-- Multiply by `10 ^ e` for a signed exponent (used by `parseFloat`). -/
def qScale10 (a : Q) (e : Int) : Q :=
  match e with
  | Int.ofNat k => qMk (a.num * Int.ofNat (10 ^ k)) a.den
  | Int.negSucc k => qMk a.num (a.den * 10 ^ (k + 1))

/-! ## Character-list string utilities

Everything is defined by structural recursion over `List Char` so that the
kernel can evaluate concrete instances; `String` wrappers go through
`String.data` / `String.mk`. -/

def chStr (l : List Char) : String := String.mk l

/-- Does `p` occur as a contiguous run inside `l`?  (JS `String.prototype.includes`.) -/
def subChars (p : List Char) : List Char → Bool
  | [] => p.isPrefixOf []
  | c :: rest => p.isPrefixOf (c :: rest) || subChars p rest

/-- JS `haystack.includes(needle)` on strings. -/
def strIncludes (haystack needle : String) : Bool := subChars needle.data haystack.data

/-- JS `String.prototype.trim` (whitespace from both ends). -/
def trimChars (l : List Char) : List Char :=
  ((l.dropWhile Char.isWhitespace).reverse.dropWhile Char.isWhitespace).reverse

def jsTrim (s : String) : String := chStr (trimChars s.data)

/-- JS `String.prototype.toUpperCase` (ASCII range, which is all the keywords need). -/
def jsUpper (s : String) : String := chStr (s.data.map Char.toUpper)

/-- JS `str.replace(/\s/g, '')`: remove every whitespace character. -/
def stripWs (s : String) : String := chStr (s.data.filter (fun c => !c.isWhitespace))

/-- JS `str.split(sep)` for a one-character separator. -/
def splitOnChar (sep : Char) : List Char → List (List Char)
  | [] => [[]]
  | c :: rest =>
    let r := splitOnChar sep rest
    if c = sep then [] :: r
    else
      match r with
      | [] => [[c]]
      | h :: t => (c :: h) :: t

def jsSplit (s : String) (sep : Char) : List String := (splitOnChar sep s.data).map chStr

/-- JS `str.replace(pat, rep)` with a one-character string pattern: only the
first occurrence is replaced. -/
def replaceFirstChar (pat : Char) (rep : List Char) : List Char → List Char
  | [] => []
  | c :: rest => if c = pat then rep ++ rest else c :: replaceFirstChar pat rep rest

/-- JS `str.replace(',', '.')`. -/
def commaToDot (s : String) : String := chStr (replaceFirstChar ',' ['.'] s.data)

/-- Index (in characters) of the first case-insensitive occurrence of `pat` in `s`. -/
def idxOfCI (s pat : String) : Option Nat :=
  let sl := s.data.map Char.toUpper
  let pl := pat.data.map Char.toUpper
  (List.range (sl.length + 1)).find? (fun k => pl.isPrefixOf (sl.drop k))

/-- JS `str.replace(/pat/i, rep)`: replace the first case-insensitive occurrence. -/
def replaceFirstCI (s pat rep : String) : String :=
  match idxOfCI s pat with
  | some k => chStr (s.data.take k) ++ rep ++ chStr (s.data.drop (k + pat.data.length))
  | none => s

def digitsToNat (l : List Char) : Nat := l.foldl (fun n c => n * 10 + (c.toNat - 48)) 0

/-- JS `parseFloat`: skip leading whitespace, optional sign, digits with an
optional fraction and exponent; `none` models `NaN` (no digits at all).
Exact rational semantics stands in for binary floating point; every value
the import handles is a short decimal, where the two agree. -/
def parseFloatQ (s : String) : Option Q :=
  let l := s.data.dropWhile Char.isWhitespace
  let sgn : Int := match l with
    | '-' :: _ => -1
    | _ => 1
  let l := match l with
    | '-' :: r => r
    | '+' :: r => r
    | _ => l
  let ip := l.takeWhile Char.isDigit
  let l := l.dropWhile Char.isDigit
  let fp := match l with
    | '.' :: r => r.takeWhile Char.isDigit
    | _ => []
  let l := match l with
    | '.' :: r => r.dropWhile Char.isDigit
    | _ => l
  if ip.isEmpty && fp.isEmpty then none
  else
    let base := qMk (sgn * Int.ofNat (digitsToNat ip * 10 ^ fp.length + digitsToNat fp)) (10 ^ fp.length)
    let e : Int := match l with
      | 'e' :: '-' :: r => if (r.takeWhile Char.isDigit).isEmpty then 0 else -(Int.ofNat (digitsToNat (r.takeWhile Char.isDigit)))
      | 'E' :: '-' :: r => if (r.takeWhile Char.isDigit).isEmpty then 0 else -(Int.ofNat (digitsToNat (r.takeWhile Char.isDigit)))
      | 'e' :: '+' :: r => Int.ofNat (digitsToNat (r.takeWhile Char.isDigit))
      | 'E' :: '+' :: r => Int.ofNat (digitsToNat (r.takeWhile Char.isDigit))
      | 'e' :: r => Int.ofNat (digitsToNat (r.takeWhile Char.isDigit))
      | 'E' :: r => Int.ofNat (digitsToNat (r.takeWhile Char.isDigit))
      | _ => 0
    some (qScale10 base e)

/-- JS `parseInt` (base 10): skip whitespace, optional sign, leading digits;
`none` models `NaN`. -/
def parseIntJs (s : String) : Option Int :=
  let l := s.data.dropWhile Char.isWhitespace
  let sgn : Int := match l with
    | '-' :: _ => -1
    | _ => 1
  let l := match l with
    | '-' :: r => r
    | '+' :: r => r
    | _ => l
  let d := l.takeWhile Char.isDigit
  if d.isEmpty then none else some (sgn * Int.ofNat (digitsToNat d))

/-- JS `x || 0` applied to a `parseFloat` result: `NaN` and `0` collapse to `0`. -/
def jsOrZero (o : Option Q) : Q :=
  match o with
  | none => qOfInt 0
  | some q => if qIsZero q then qOfInt 0 else q

/-- JS `parseInt(x) || 5` (product alert threshold default). -/
def jsOrFive (o : Option Int) : Int :=
  match o with
  | none => 5
  | some k => if k = 0 then 5 else k

/-! ## Cells -/

/-- A decoded spreadsheet cell: a string or a number.  `sheet_to_json` with
`defval: ''` fills empty and missing cells with `''`. -/
inductive Cell where
  | str (s : String)
  | num (q : Q)
  deriving DecidableEq, Repr

/-- Digits of the fractional part `n / d` (with `n < d`), up to `fuel` digits.
JS prints the shortest round-trip decimal of a float; for the short finite
decimals the import handles, that is the exact expansion produced here. -/
def fracDigits : Nat → Nat → Nat → List Char
  | 0, _, _ => []
  | _ + 1, 0, _ => []
  | fuel + 1, n, d =>
    let n10 := n * 10
    Char.ofNat (48 + n10 / d) :: fracDigits fuel (n10 % d) d

/-- JS `String(n)` for a number. -/
def jsNumToString (q : Q) : String :=
  let sign := if q.num < 0 then "-" else ""
  if q.den = 0 then sign ++ "NaN"
  else
    let ipart := q.num.natAbs / q.den
    let rest := q.num.natAbs % q.den
    if rest = 0 then sign ++ toString ipart
    else sign ++ toString ipart ++ "." ++ chStr (fracDigits 40 rest q.den)

/-- JS `String(cell)`. -/
def cellToString : Cell → String
  | Cell.str s => s
  | Cell.num q => jsNumToString q

/-- JS truthiness of a cell value: `''` and `0` are falsy. -/
def jsTruthy : Cell → Bool
  | Cell.str s => s ≠ ""
  | Cell.num q => !qIsZero q

/-- JS truthiness of an optional string (`undefined`/`null` and `''` are falsy). -/
def optTruthy : Option String → Bool
  | some s => s ≠ ""
  | none => false

/-- `row[j]`: out-of-range access behaves like the empty cell. -/
def getCell (row : List Cell) (j : Nat) : Cell := row.getD j (Cell.str "")

/-! ## JavaScript dates

`new Date(ms)` is valid when `|ms| ≤ 8.64e15`.  String parsing is modelled
on the ISO `YYYY-MM-DD` subset — exactly the shape the import builds from
`DD/MM/YYYY` text — with calendar validation; every other string is an
invalid date.  Calendar arithmetic uses the standard civil-from-epoch
day-count algorithm. -/

inductive JSDate where
  | valid (ms : Int)
  | invalid
  deriving DecidableEq, Repr

def jsMaxDateMs : Nat := 8640000000000000

/-- `new Date(ms)` for a millisecond timestamp. -/
def jsNewDateMs (ms : Int) : JSDate :=
  if ms.natAbs ≤ jsMaxDateMs then JSDate.valid ms else JSDate.invalid

def isLeap (y : Int) : Bool := (Int.emod y 4 = 0 && Int.emod y 100 ≠ 0) || Int.emod y 400 = 0

def daysInMonth (y : Int) (m : Nat) : Nat :=
  if m = 2 then (if isLeap y then 29 else 28)
  else if m = 4 || m = 6 || m = 9 || m = 11 then 30
  else 31

/-- Days from 1970-01-01 to the civil date `y-m-d` (proleptic Gregorian). -/
def daysFromCivil (y : Int) (m d : Nat) : Int :=
  let y' := if m ≤ 2 then y - 1 else y
  let era := Int.ediv y' 400
  let yoe := (y' - era * 400).toNat
  let mp := (m + 9) % 12
  let doy := (153 * mp + 2) / 5 + d - 1
  let doe := yoe * 365 + yoe / 4 - yoe / 100 + doy
  era * 146097 + Int.ofNat doe - 719468

/-- `new Date(string)` on the ISO `YYYY-MM-DD` subset; anything else is invalid. -/
def jsDateOfString (s : String) : JSDate :=
  match jsSplit s '-' with
  | [ys, ms, ds] =>
    if ys.data.length = 4 && ys.data.all Char.isDigit
        && ms.data.length = 2 && ms.data.all Char.isDigit
        && ds.data.length = 2 && ds.data.all Char.isDigit then
      let y : Int := Int.ofNat (digitsToNat ys.data)
      let m := digitsToNat ms.data
      let d := digitsToNat ds.data
      if 1 ≤ m && m ≤ 12 && 1 ≤ d && d ≤ daysInMonth y m then
        JSDate.valid (daysFromCivil y m d * 86400000)
      else JSDate.invalid
    else JSDate.invalid
  | _ => JSDate.invalid

/-- The service's `parseExcelDate` helper: `null` on falsy input; numbers are
Excel serials rebased by 25569 days and scaled to milliseconds; a string
with three `/`-separated parts is re-assembled as `YYYY-MM-DD` and handed
to `new Date` with no validity check; any other string goes through
`new Date` guarded by `isNaN`. -/
def parseExcelDate (excelDate : Cell) : Option JSDate :=
  if !jsTruthy excelDate then none
  else
    match excelDate with
    | Cell.num q => some (jsNewDateMs (jsRound (qMul (qMul (qSub q (qOfInt 25569)) (qOfInt 86400)) (qOfInt 1000))))
    | Cell.str s =>
      let parts := jsSplit s '/'
      if parts.length = 3 then
        some (jsDateOfString (parts.getD 2 "" ++ "-" ++ parts.getD 1 "" ++ "-" ++ parts.getD 0 ""))
      else
        match jsDateOfString s with
        | JSDate.invalid => none
        | d => some d

/-! ## Store records

Field names follow the Sequelize models.  `Option` fields are `NULL`-able
columns; `create` stores `none` for keys the service leaves unset. -/

structure WorkerRec where
  id : Nat
  prenom : String
  nom : String
  poste : String
  site_affectation : String
  statut : String
  date_embauche : JSDate
  date_naissance : Option JSDate
  email : Option String
  cin : Option String
  contact : Option String
  adresse : Option String
  salaire_base : Q
  created_by : Option Int
  deriving DecidableEq, Repr

structure CategoryRec where
  id : Nat
  nom : String
  description : Option String
  deriving DecidableEq, Repr

structure ProductRec where
  id : Nat
  nom : String
  description : Option String
  unite : String
  seuil_alerte : Int
  statut : String
  quantite_actuelle : Q
  code_produit : Option String
  category_id : Option Nat
  deriving DecidableEq, Repr

structure WStats where
  total : Nat
  created : Nat
  updated : Nat
  errors : List String
  deriving DecidableEq, Repr

def zeroStats : WStats := ⟨0, 0, 0, []⟩

/-! ## Service worker import (`importWorkersFromExcel`)

The loop threads mutable scan state (`currentSite`, `headerRowIndex`,
`colMap`) plus the statistics and the store.  Row classification depends
only on the scan state and the row, never on the store, so it is factored
into `classifyW`; `processWorkerRow` then applies the classified action to
the full state. -/

structure WColMap where
  prenom : Option Nat
  nom : Option Nat
  cin : Option Nat
  telephone : Option Nat
  adresse : Option Nat
  salaire : Option Nat
  date_naissance : Option Nat
  deriving DecidableEq, Repr

def emptyWColMap : WColMap := ⟨none, none, none, none, none, none, none⟩

structure WScan where
  site : String
  headerIdx : Option Nat
  colMap : WColMap
  deriving DecidableEq, Repr

def initWScan : WScan := ⟨"SIEGE", none, emptyWColMap⟩

/-- `row.map(c => String(c).trim().toUpperCase())`. -/
def rowStrings (row : List Cell) : List String :=
  row.map (fun c => jsUpper (jsTrim (cellToString c)))

/-- `row.filter(c => c && String(c).trim() !== '')`. -/
def nonEmptyCells (row : List Cell) : List Cell :=
  row.filter (fun c => jsTruthy c && jsTrim (cellToString c) ≠ "")

/-- The outer site-banner heuristic: when it fires, the new site name. -/
def wSiteBannerName (row : List Cell) : Option String :=
  if (nonEmptyCells row).length = 1 then
    let potentialSite := jsTrim (cellToString ((nonEmptyCells row).headD (Cell.str "")))
    if potentialSite.data.length > 3 && !((rowStrings row).contains "PRENOMS")
        && !(strIncludes potentialSite "TECHNICIENS DE SURFACE") then
      some potentialSite
    else none
  else none

/-- Worker header detection: the uppercased row contains both exact tokens. -/
def isWorkerHeaderRow (row : List Cell) : Bool :=
  (rowStrings row).contains "PRENOMS" && (rowStrings row).contains "NOMS"

/-- Re-populate the column map from a header row (`rowStr.forEach` with an
`if`/`else if` chain; later columns overwrite earlier ones per key). -/
def applyWorkerHeader (cm : WColMap) (rowStr : List String) : WColMap :=
  rowStr.enum.foldl (fun cm p =>
    let idx := p.1
    let colName := p.2
    if strIncludes colName "PRENOM" then { cm with prenom := some idx }
    else if colName = "NOMS" then { cm with nom := some idx }
    else if strIncludes colName "N.I" || strIncludes colName "CIN" then { cm with cin := some idx }
    else if strIncludes colName "TELEPHONE" then { cm with telephone := some idx }
    else if strIncludes colName "ADRESSE" then { cm with adresse := some idx }
    else if strIncludes colName "SALAIRE" then { cm with salaire := some idx }
    else if strIncludes colName "NAISSANCE" then { cm with date_naissance := some idx }
    else cm) cm

/-- The salary coercion of the service import:
`parseFloat(String(cell).replace(/\s/g, '').replace(',', '.')) || 0`. -/
def svcParseSalary (c : Cell) : Q :=
  jsOrZero (parseFloatQ (commaToDot (stripWs (cellToString c))))

/-- The `workerData` object assembled for a data row. -/
structure WorkerData where
  prenom : String
  nom : String
  site_affectation : String
  date_naissance : Option JSDate
  cin : Option String
  contact : Option String
  adresse : Option String
  salaire_base : Q
  deriving DecidableEq, Repr

def buildWorkerData (scan : WScan) (p n : Nat) (row : List Cell) : WorkerData :=
  { prenom := jsTrim (cellToString (getCell row p))
    nom := jsTrim (cellToString (getCell row n))
    site_affectation := scan.site
    date_naissance :=
      match scan.colMap.date_naissance with
      | some j => parseExcelDate (getCell row j)
      | none => none
    cin :=
      match scan.colMap.cin with
      | some j => if jsTruthy (getCell row j) then some (jsTrim (cellToString (getCell row j))) else none
      | none => none
    contact :=
      match scan.colMap.telephone with
      | some j => if jsTruthy (getCell row j) then some (jsTrim (stripWs (cellToString (getCell row j)))) else none
      | none => none
    adresse :=
      match scan.colMap.adresse with
      | some j => if jsTruthy (getCell row j) then some (jsTrim (cellToString (getCell row j))) else none
      | none => none
    salaire_base :=
      match scan.colMap.salaire with
      | some j => if jsTruthy (getCell row j) then svcParseSalary (getCell row j) else qOfInt 0
      | none => qOfInt 0 }

/-- One classified action for a worker row. -/
inductive WAction where
  | skip
  | setSite (s : String)
  | header (cm : WColMap)
  | data (wd : WorkerData) (rawPrenom rawNom : String)
  deriving DecidableEq, Repr

/-- Row classification, mirroring the loop body's control flow: the site
heuristic fires first (and `continue`s), then header detection, then —
only with a previously seen header row — the data path with its required
columns, required cells, and the inner single-cell site check. -/
def classifyW (scan : WScan) (i : Nat) (row : List Cell) : WAction :=
  match wSiteBannerName row with
  | some s => WAction.setSite s
  | none =>
    if isWorkerHeaderRow row then WAction.header (applyWorkerHeader scan.colMap (rowStrings row))
    else
      match scan.headerIdx with
      | none => WAction.skip
      | some h =>
        if h < i then
          match scan.colMap.prenom, scan.colMap.nom with
          | some p, some n =>
            if jsTruthy (getCell row p) && jsTruthy (getCell row n) then
              if (nonEmptyCells row).length = 1
                  && (jsTrim (cellToString ((nonEmptyCells row).headD (Cell.str "")))).data.length > 3 then
                WAction.setSite (jsTrim (cellToString ((nonEmptyCells row).headD (Cell.str ""))))
              else
                WAction.data (buildWorkerData scan p n row) (cellToString (getCell row p))
                  (cellToString (getCell row n))
            else WAction.skip
          | _, _ => WAction.skip
        else WAction.skip

/-- The scan state after a row (store-independent). -/
def wScanNext (scan : WScan) (i : Nat) (row : List Cell) : WScan :=
  match classifyW scan i row with
  | WAction.setSite s => { scan with site := s }
  | WAction.header cm => { scan with headerIdx := some i, colMap := cm }
  | _ => scan

/-- The `cin` lookup key: `if (workerData.cin)` — present and non-empty. -/
def cinKey (wd : WorkerData) : Option String :=
  match wd.cin with
  | some c => if c = "" then none else some c
  | none => none

/-- Existence check: by `cin` when truthy, else (only when `cin` is falsy)
the name-plus-contact fallback. -/
def workerLookup (workers : List WorkerRec) (wd : WorkerData) : Option WorkerRec :=
  match cinKey wd with
  | some c => workers.find? (fun w => w.cin == some c)
  | none =>
    if optTruthy wd.contact then
      workers.find? (fun w => w.prenom == wd.prenom && w.nom == wd.nom && w.contact == wd.contact)
    else none

/-- `existingWorker.update({...})`: site always written; salary only when
positive; address, contact and birth date fall back to the stored value
when the row's value is falsy. -/
def applyWorkerUpdate (w : WorkerRec) (wd : WorkerData) : WorkerRec :=
  { w with
    site_affectation := wd.site_affectation
    salaire_base := if qIsPos wd.salaire_base then wd.salaire_base else w.salaire_base
    adresse := if optTruthy wd.adresse then wd.adresse else w.adresse
    contact := if optTruthy wd.contact then wd.contact else w.contact
    date_naissance :=
      match wd.date_naissance with
      | some d => some d
      | none => w.date_naissance }

/-- `Worker.create(workerData)` with the service's constant fields. -/
def newWorker (now : Int) (id : Nat) (wd : WorkerData) : WorkerRec :=
  { id := id
    prenom := wd.prenom
    nom := wd.nom
    poste := "Technicien de surface"
    site_affectation := wd.site_affectation
    statut := "ACTIF"
    date_embauche := JSDate.valid now
    date_naissance := wd.date_naissance
    email := none
    cin := wd.cin
    contact := wd.contact
    adresse := wd.adresse
    salaire_base := wd.salaire_base
    created_by := none }

structure WState where
  scan : WScan
  stats : WStats
  workers : List WorkerRec
  nextId : Nat
  deriving DecidableEq, Repr

/-- The create-or-update step for one data row. -/
def workerUpsert (now : Int) (st : WState) (wd : WorkerData) : WState :=
  match workerLookup st.workers wd with
  | some w =>
    { st with
      workers := st.workers.map (fun x => if x.id = w.id then applyWorkerUpdate x wd else x)
      stats := { st.stats with updated := st.stats.updated + 1 } }
  | none =>
    { st with
      workers := st.workers ++ [newWorker now st.nextId wd]
      nextId := st.nextId + 1
      stats := { st.stats with created := st.stats.created + 1 } }

/-- The per-row error message `Ligne ${i + 1} (${prenom} ${nom}): ${err.message}`. -/
def wErrMsg (i : Nat) (rawPrenom rawNom msg : String) : String :=
  "Ligne " ++ toString (i + 1) ++ " (" ++ rawPrenom ++ " " ++ rawNom ++ "): " ++ msg

/-- One iteration of the worker-import loop.  `crash i = some msg` means the
row's store write throws `msg` (the `catch` branch); reads never throw. -/
def processWorkerRow (now : Int) (crash : Nat → Option String) (st : WState) (i : Nat)
    (row : List Cell) : WState :=
  match classifyW st.scan i row with
  | WAction.skip => st
  | WAction.setSite s => { st with scan := { st.scan with site := s } }
  | WAction.header cm => { st with scan := { st.scan with headerIdx := some i, colMap := cm } }
  | WAction.data wd rawPrenom rawNom =>
    let st1 := { st with stats := { st.stats with total := st.stats.total + 1 } }
    match crash i with
    | some msg =>
      { st1 with stats := { st1.stats with errors := st1.stats.errors ++ [wErrMsg i rawPrenom rawNom msg] } }
    | none => workerUpsert now st1 wd

/-- The `for` loop over rows, with the running row index. -/
def runW (now : Int) (crash : Nat → Option String) : WState → Nat → List (List Cell) → WState
  | st, _, [] => st
  | st, i, row :: rest => runW now crash (processWorkerRow now crash st i row) (i + 1) rest

/-- `importWorkersFromExcel` on a decoded grid, against a given worker store. -/
def importWorkersFromExcel (now : Int) (crash : Nat → Option String) (workers : List WorkerRec)
    (nextId : Nat) (grid : List (List Cell)) : WState :=
  runW now crash ⟨initWScan, zeroStats, workers, nextId⟩ 0 grid

/-- A crash oracle under which no store write throws. -/
def noCrash : Nat → Option String := fun _ => none

/-! ## Service product import (`importProductsFromExcel`) -/

structure PColMap where
  code : Option Nat
  nom : Option Nat
  categorie : Option Nat
  unite : Option Nat
  seuil : Option Nat
  description : Option Nat
  deriving DecidableEq, Repr

def emptyPColMap : PColMap := ⟨none, none, none, none, none, none⟩

structure PScan where
  headerIdx : Option Nat
  colMap : PColMap
  deriving DecidableEq, Repr

def initPScan : PScan := ⟨none, emptyPColMap⟩

/-- Product header detection: exact `NOM DU PRODUIT`, or exact `CODE`
together with some cell containing `CAT`. -/
def isProductHeaderRow (row : List Cell) : Bool :=
  (rowStrings row).contains "NOM DU PRODUIT"
    || ((rowStrings row).contains "CODE" && (rowStrings row).any (fun c => strIncludes c "CAT"))

def applyProductHeader (cm : PColMap) (rowStr : List String) : PColMap :=
  rowStr.enum.foldl (fun cm p =>
    let idx := p.1
    let colName := p.2
    if strIncludes colName "CODE" then { cm with code := some idx }
    else if strIncludes colName "NOM" then { cm with nom := some idx }
    else if strIncludes colName "CAT" then { cm with categorie := some idx }
    else if strIncludes colName "UNIT" then { cm with unite := some idx }
    else if strIncludes colName "SEUIL" then { cm with seuil := some idx }
    else if strIncludes colName "DESC" then { cm with description := some idx }
    else cm) cm

/-- The `productData` object (before category resolution; `category_id = none`
models the key being absent). -/
structure ProductData where
  nom : String
  description : Option String
  unite : String
  seuil_alerte : Int
  statut : String
  quantite_actuelle : Q
  code_produit : Option String
  category_id : Option Nat
  deriving DecidableEq, Repr

def buildProductData (scan : PScan) (n : Nat) (row : List Cell) : ProductData :=
  { nom := jsTrim (cellToString (getCell row n))
    description :=
      match scan.colMap.description with
      | some j => some (jsTrim (cellToString (getCell row j)))
      | none => none
    unite :=
      match scan.colMap.unite with
      | some j => if jsTruthy (getCell row j) then jsTrim (cellToString (getCell row j)) else "Unité"
      | none => "Unité"
    seuil_alerte :=
      match scan.colMap.seuil with
      | some j => jsOrFive (parseIntJs (cellToString (getCell row j)))
      | none => 5
    statut := "OK"
    quantite_actuelle := qOfInt 0
    code_produit :=
      match scan.colMap.code with
      | some j => if jsTruthy (getCell row j) then some (jsTrim (cellToString (getCell row j))) else none
      | none => none
    category_id := none }

/-- The raw category cell (`String(...)`, untrimmed) when the column is
mapped and the cell truthy. -/
def catCellValue (scan : PScan) (row : List Cell) : Option String :=
  match scan.colMap.categorie with
  | some j => if jsTruthy (getCell row j) then some (cellToString (getCell row j)) else none
  | none => none

inductive PAction where
  | skip
  | header (cm : PColMap)
  | data (pd : ProductData) (catRaw : Option String) (rawNom : String)
  deriving DecidableEq, Repr

/-- Product row classification (no site heuristic in the product loop). -/
def classifyP (scan : PScan) (i : Nat) (row : List Cell) : PAction :=
  if isProductHeaderRow row then PAction.header (applyProductHeader scan.colMap (rowStrings row))
  else
    match scan.headerIdx with
    | none => PAction.skip
    | some h =>
      if h < i then
        match scan.colMap.nom with
        | some n =>
          if jsTruthy (getCell row n) then
            PAction.data (buildProductData scan n row) (catCellValue scan row)
              (cellToString (getCell row n))
          else PAction.skip
        | none => PAction.skip
      else PAction.skip

def pScanNext (scan : PScan) (i : Nat) (row : List Cell) : PScan :=
  match classifyP scan i row with
  | PAction.header cm => { scan with headerIdx := some i, colMap := cm }
  | _ => scan

structure PState where
  scan : PScan
  stats : WStats
  products : List ProductRec
  categories : List CategoryRec
  nextId : Nat
  nextCatId : Nat
  deriving DecidableEq, Repr

/-- Category resolution: find by exact trimmed name, create with description
`'Importé via Excel'` on miss, and put the id into `productData`. -/
def resolveCategory (st : PState) (pd : ProductData) (catRaw : Option String) :
    ProductData × PState :=
  match catRaw with
  | none => (pd, st)
  | some raw =>
    let catName := jsTrim raw
    match st.categories.find? (fun c => c.nom == catName) with
    | some cat => ({ pd with category_id := some cat.id }, st)
    | none =>
      ({ pd with category_id := some st.nextCatId },
       { st with
         categories := st.categories ++ [⟨st.nextCatId, catName, some "Importé via Excel"⟩]
         nextCatId := st.nextCatId + 1 })

/-- The product `code_produit` lookup key (`if (productData.code_produit)`). -/
def codeKey (pd : ProductData) : Option String :=
  match pd.code_produit with
  | some c => if c = "" then none else some c
  | none => none

/-- Existence check: by code when truthy, then unconditionally by name. -/
def productLookup (products : List ProductRec) (pd : ProductData) : Option ProductRec :=
  let byCode :=
    match codeKey pd with
    | some c => products.find? (fun p => p.code_produit == some c)
    | none => none
  match byCode with
  | some p => some p
  | none => products.find? (fun p => p.nom == pd.nom)

/-- `existingProduct.update(productData)`: every key of `productData` is
written, including `statut: 'OK'` and `quantite_actuelle: 0`; only
`category_id` is skipped when the key is absent. -/
def applyProductUpdate (p : ProductRec) (pd : ProductData) : ProductRec :=
  { p with
    nom := pd.nom
    description := pd.description
    unite := pd.unite
    seuil_alerte := pd.seuil_alerte
    statut := pd.statut
    quantite_actuelle := pd.quantite_actuelle
    code_produit := pd.code_produit
    category_id :=
      match pd.category_id with
      | some cid => some cid
      | none => p.category_id }

def newProduct (id : Nat) (pd : ProductData) : ProductRec :=
  { id := id
    nom := pd.nom
    description := pd.description
    unite := pd.unite
    seuil_alerte := pd.seuil_alerte
    statut := pd.statut
    quantite_actuelle := pd.quantite_actuelle
    code_produit := pd.code_produit
    category_id := pd.category_id }

def productUpsert (st : PState) (pd : ProductData) : PState :=
  match productLookup st.products pd with
  | some p =>
    { st with
      products := st.products.map (fun x => if x.id = p.id then applyProductUpdate x pd else x)
      stats := { st.stats with updated := st.stats.updated + 1 } }
  | none =>
    { st with
      products := st.products ++ [newProduct st.nextId pd]
      nextId := st.nextId + 1
      stats := { st.stats with created := st.stats.created + 1 } }

/-- The per-row error message `Ligne ${i + 1} (${nom}): ${err.message}`. -/
def pErrMsg (i : Nat) (rawNom msg : String) : String :=
  "Ligne " ++ toString (i + 1) ++ " (" ++ rawNom ++ "): " ++ msg

/-- One iteration of the product-import loop.  Category resolution happens
inside the `try` block before the product write, so its effect persists
even when the write throws. -/
def processProductRow (crash : Nat → Option String) (st : PState) (i : Nat)
    (row : List Cell) : PState :=
  match classifyP st.scan i row with
  | PAction.skip => st
  | PAction.header cm => { st with scan := { st.scan with headerIdx := some i, colMap := cm } }
  | PAction.data pd catRaw rawNom =>
    let st1 := { st with stats := { st.stats with total := st.stats.total + 1 } }
    let r := resolveCategory st1 pd catRaw
    match crash i with
    | some msg =>
      { r.2 with stats := { r.2.stats with errors := r.2.stats.errors ++ [pErrMsg i rawNom msg] } }
    | none => productUpsert r.2 r.1

def runP (crash : Nat → Option String) : PState → Nat → List (List Cell) → PState
  | st, _, [] => st
  | st, i, row :: rest => runP crash (processProductRow crash st i row) (i + 1) rest

/-- `importProductsFromExcel` on a decoded grid, against given product and
category stores. -/
def importProductsFromExcel (crash : Nat → Option String) (products : List ProductRec)
    (categories : List CategoryRec) (nextId nextCatId : Nat) (grid : List (List Cell)) : PState :=
  runP crash ⟨initPScan, zeroStats, products, categories, nextId, nextCatId⟩ 0 grid

/-! ## Duplicate worker import (`importWorkers` in `worker.controller.js`)

This implementation reads the sheet without `defval`, starts from a fixed
default column map (indices 1..7), detects headers by substring search
over `JSON.stringify(row)`, and has no header gating before its data path.
Its `update` overwrites every field of the record. -/

structure CColMap where
  prenom : Nat
  nom : Nat
  ni : Nat
  tel : Nat
  adresse : Nat
  salaire : Nat
  naissance : Nat
  deriving DecidableEq, Repr

def defaultCColMap : CColMap := ⟨1, 2, 3, 4, 5, 6, 7⟩

/-- JSON string escaping for the quote and backslash (enough for the
keyword search the controller does on the stringified row). -/
def jsonEscape (s : String) : String :=
  chStr (s.data.foldr (fun c acc =>
    if c = '"' then '\\' :: '"' :: acc
    else if c = '\\' then '\\' :: '\\' :: acc
    else c :: acc) [])

def jsonCell : Cell → String
  | Cell.str s => "\"" ++ jsonEscape s ++ "\""
  | Cell.num q => jsNumToString q

/-- `JSON.stringify(row)`. -/
def jsonStringifyRow (row : List Cell) : String :=
  "[" ++ chStr (((row.map jsonCell).map String.data).intersperse [','] |>.flatten) ++ "]"

/-- Header detection: substring search over the uppercased JSON of the row. -/
def ctrlIsHeaderRow (row : List Cell) : Bool :=
  strIncludes (jsUpper (jsonStringifyRow row)) "PRENOMS"
    && strIncludes (jsUpper (jsonStringifyRow row)) "NOMS"

/-- Column-map adjustment from a header row: a chain of independent `if`s on
`String(cell).toUpperCase().trim()`; note that the birth-date branch
matches any cell containing `ON` (so a `TELEPHONE` header also moves it). -/
def ctrlApplyHeader (cm : CColMap) (row : List Cell) : CColMap :=
  row.enum.foldl (fun cm p =>
    let idx := p.1
    let val := jsTrim (jsUpper (cellToString p.2))
    let cm := if strIncludes val "PRENOM" then { cm with prenom := idx } else cm
    let cm := if strIncludes val "NOM" && !strIncludes val "PRENOM" then { cm with nom := idx } else cm
    let cm := if strIncludes val "N.I" || strIncludes val "CNI" then { cm with ni := idx } else cm
    let cm := if strIncludes val "TELEPHONE" then { cm with tel := idx } else cm
    let cm := if strIncludes val "ADRESSE" then { cm with adresse := idx } else cm
    let cm := if strIncludes val "SALAIRE" then { cm with salaire := idx } else cm
    let cm := if strIncludes val "ON" then { cm with naissance := idx } else cm
    cm) cm

/-- Number of cells that are not `null`/`undefined`/`''`. -/
def ctrlRowContent (row : List Cell) : Nat :=
  (row.filter (fun c => c ≠ Cell.str "")).length

/-- The site heuristic of the controller import: on a row with at most two
filled cells and no header keyword, the first string cell longer than two
characters (trimmed) becomes the site, unless it is one of the excluded
keywords; the `LES TECHNICIENS DE SURFACE DE` prefix is stripped
case-insensitively. -/
def ctrlSiteName (row : List Cell) : Option String :=
  if ctrlRowContent row ≤ 2
      && !strIncludes (jsUpper (jsonStringifyRow row)) "PRENOMS"
      && !strIncludes (jsUpper (jsonStringifyRow row)) "NOMS" then
    match row.find? (fun c =>
      match c with
      | Cell.str s => (jsTrim s).data.length > 2
      | Cell.num _ => false) with
    | some (Cell.str s) =>
      if ["PRENOMS", "NOMS", "SALAIRES"].contains (jsUpper s) then none
      else
        let cs := jsTrim s
        if strIncludes (jsUpper cs) "LES TECHNICIENS DE SURFACE DE" then
          some (jsTrim (replaceFirstCI cs "LES TECHNICIENS DE SURFACE DE" ""))
        else some cs
    | _ => none
  else none

/-- The controller's salary coercion:
`row[...] ? parseFloat(...) : 0`, then `isNaN(v) ? 0 : v`. -/
def ctrlParseSalary (c : Cell) : Q :=
  if jsTruthy c then (parseFloatQ (commaToDot (stripWs (cellToString c)))).getD (qOfInt 0)
  else qOfInt 0

/-- The controller's inline birth-date parsing (no falsy-to-null guard after
the truthiness check, and no `isNaN` guard on the string fallback). -/
def ctrlParseBirthDate (c : Cell) : Option JSDate :=
  if jsTruthy c then
    match c with
    | Cell.num q => some (jsNewDateMs (jsRound (qMul (qMul (qSub q (qOfInt 25569)) (qOfInt 86400)) (qOfInt 1000))))
    | Cell.str s =>
      let parts := jsSplit s '/'
      if parts.length = 3 then
        some (jsDateOfString (parts.getD 2 "" ++ "-" ++ parts.getD 1 "" ++ "-" ++ parts.getD 0 ""))
      else some (jsDateOfString s)
  else none

structure CState where
  site : String
  colMap : CColMap
  successCount : Nat
  errors : List String
  workers : List WorkerRec
  nextId : Nat
  deriving DecidableEq, Repr

/-- The full `workerData` of the controller import (every field written on
update as well as on create). -/
def ctrlWorkerRec (now userId : Int) (id : Nat) (st : CState) (row : List Cell) : WorkerRec :=
  { id := id
    nom := jsTrim (cellToString (getCell row st.colMap.nom))
    prenom := jsTrim (cellToString (getCell row st.colMap.prenom))
    cin := if jsTruthy (getCell row st.colMap.ni) then some (jsTrim (cellToString (getCell row st.colMap.ni))) else none
    contact := if jsTruthy (getCell row st.colMap.tel) then some (jsTrim (cellToString (getCell row st.colMap.tel))) else none
    adresse := if jsTruthy (getCell row st.colMap.adresse) then some (jsTrim (cellToString (getCell row st.colMap.adresse))) else none
    salaire_base := ctrlParseSalary (getCell row st.colMap.salaire)
    site_affectation := st.site
    date_naissance := ctrlParseBirthDate (getCell row st.colMap.naissance)
    date_embauche := JSDate.valid now
    poste := "Technicien de surface"
    statut := "ACTIF"
    email := none
    created_by := some userId }

/-- One iteration of the controller import loop. -/
def processCtrlRow (now userId : Int) (crash : Nat → Option String) (st : CState) (i : Nat)
    (row : List Cell) : CState :=
  if ctrlRowContent row = 0 then st
  else if ctrlIsHeaderRow row then { st with colMap := ctrlApplyHeader st.colMap row }
  else
    match ctrlSiteName row with
    | some s => { st with site := s }
    | none =>
      let nomC := getCell row st.colMap.nom
      let prenomC := getCell row st.colMap.prenom
      if !jsTruthy nomC || !jsTruthy prenomC then st
      else
        match crash i with
        | some msg =>
          { st with errors := st.errors ++ ["Erreur ligne " ++ toString (i + 1) ++ ": " ++ msg] }
        | none =>
          let cin : Option String :=
            if jsTruthy (getCell row st.colMap.ni) then some (jsTrim (cellToString (getCell row st.colMap.ni))) else none
          let byCin : Option WorkerRec :=
            match cin with
            | some c => if c = "" then none else st.workers.find? (fun w => w.cin == some c)
            | none => none
          let found : Option WorkerRec :=
            match byCin with
            | some w => some w
            | none =>
              st.workers.find? (fun w =>
                w.nom == jsTrim (cellToString nomC) && w.prenom == jsTrim (cellToString prenomC))
          match found with
          | some w =>
            { st with
              workers := st.workers.map (fun x =>
                if x.id = w.id then ctrlWorkerRec now userId x.id st row else x)
              successCount := st.successCount + 1 }
          | none =>
            { st with
              workers := st.workers ++ [ctrlWorkerRec now userId st.nextId st row]
              nextId := st.nextId + 1
              successCount := st.successCount + 1 }

def runC (now userId : Int) (crash : Nat → Option String) : CState → Nat → List (List Cell) → CState
  | st, _, [] => st
  | st, i, row :: rest => runC now userId crash (processCtrlRow now userId crash st i row) (i + 1) rest

/-- `importWorkers` of `worker.controller.js` on a decoded grid. -/
def ctrlImportWorkers (now userId : Int) (crash : Nat → Option String) (workers : List WorkerRec)
    (nextId : Nat) (grid : List (List Cell)) : CState :=
  runC now userId crash ⟨"SALIHATE CLEAN SERVICES", defaultCColMap, 0, [], workers, nextId⟩ 0 grid

/-! ## Derived notions used by the statements

Row classification depends only on the scan state, so the sequence of
`workerData`/`productData` objects a grid produces is a pure function of
the grid; these are the "data rows" the specification talks about. -/

def wScanRun : WScan → Nat → List (List Cell) → WScan
  | sc, _, [] => sc
  | sc, i, row :: rest => wScanRun (wScanNext sc i row) (i + 1) rest

def pScanRun : PScan → Nat → List (List Cell) → PScan
  | sc, _, [] => sc
  | sc, i, row :: rest => pScanRun (pScanNext sc i row) (i + 1) rest

/-- The `workerData` objects of the grid's data rows, in processing order. -/
def wDataRows : WScan → Nat → List (List Cell) → List WorkerData
  | _, _, [] => []
  | sc, i, row :: rest =>
    (match classifyW sc i row with
     | WAction.data wd _ _ => [wd]
     | _ => []) ++ wDataRows (wScanNext sc i row) (i + 1) rest

/-- The `productData` objects of the grid's data rows, in processing order. -/
def pDataRows : PScan → Nat → List (List Cell) → List ProductData
  | _, _, [] => []
  | sc, i, row :: rest =>
    (match classifyP sc i row with
     | PAction.data pd _ _ => [pd]
     | _ => []) ++ pDataRows (pScanNext sc i row) (i + 1) rest

/-- Some stored worker carries this `cin`. -/
def hasCin (ws : List WorkerRec) (c : String) : Prop :=
  ∃ w ∈ ws, w.cin = some c

/-- Some stored product carries this name and this code. -/
def hasKeyRec (ps : List ProductRec) (n c : String) : Prop :=
  ∃ p ∈ ps, p.nom = n ∧ p.code_produit = some c

/-- Store well-formedness: record ids are distinct and below the next id
(what a primary-key column guarantees). -/
def pWF (st : PState) : Prop :=
  (st.products.map (fun p => p.id)).Nodup ∧ ∀ p ∈ st.products, p.id < st.nextId

/-! ## Claims -/

/-- C4, counterexample.  The claim says serial 25569 parses to 1900-01-01.
The code computes `(25569 - 25569) * 86400 * 1000 = 0` milliseconds, which
is 1970-01-01 (the code's own comment says 25569 is the day count between
1900 and 1970); 1900-01-01 would be −2208988800000 milliseconds. -/
theorem parseExcelDate_25569_not_1900 :
    parseExcelDate (Cell.num (qOfInt 25569)) = some (JSDate.valid 0)
      ∧ daysFromCivil 1900 1 1 * 86400000 = -2208988800000
      ∧ (0 : Int) ≠ -2208988800000 := by
  refine ⟨by decide, by decide, by decide⟩

/-- C4, amended: serial 25569 parses to 1970-01-01 and serial 44197 to
2021-01-01, by subtracting 25569 days and scaling to milliseconds. -/
theorem parseExcelDate_serials :
    parseExcelDate (Cell.num (qOfInt 25569)) = some (JSDate.valid (daysFromCivil 1970 1 1 * 86400000))
      ∧ parseExcelDate (Cell.num (qOfInt 44197)) = some (JSDate.valid (daysFromCivil 2021 1 1 * 86400000)) := by
  refine ⟨by decide, by decide⟩

/-- C7, counterexample.  On slash-separated text whose three parts are not a
valid day/month/year, `parseExcelDate` returns an invalid `Date` object,
not `null`: the `isNaN` guard protects only the final fallback, not the
`DD/MM/YYYY` branch. -/
theorem parseExcelDate_slash_invalid :
    parseExcelDate (Cell.str "a/b/c") = some JSDate.invalid := by decide

/-- C1, counterexample.  `importWorkers` of `worker.controller.js` creates a
worker from a row although the grid contains no header row at all: its
column map starts at fixed default indices and its data path is not gated
on a previously seen header. -/
theorem ctrlImport_creates_without_header :
    (ctrlImportWorkers 0 0 noCrash [] 0 [[Cell.str "x", Cell.str "John", Cell.str "Doe"]]).workers.length = 1
      ∧ (ctrlImportWorkers 0 0 noCrash [] 0 [[Cell.str "x", Cell.str "John", Cell.str "Doe"]]).successCount = 1
      ∧ ctrlIsHeaderRow [Cell.str "x", Cell.str "John", Cell.str "Doe"] = false := by
  refine ⟨by decide, by decide, by decide⟩

/-- C3, counterexample.  Re-importing a product row over an existing record
resets fields that are not read from the row: the stored quantity 7
becomes 0 and the status `ALERTE` becomes `OK`, because
`existingProduct.update(productData)` writes `quantite_actuelle: 0` and
`statut: 'OK'` (and clears the unmapped code) on every update. -/
theorem productUpdate_resets_quantity :
    (importProductsFromExcel noCrash
        [⟨0, "P", none, "U", 5, "ALERTE", qOfInt 7, some "C", none⟩] [] 1 0
        [[Cell.str "NOM DU PRODUIT"], [Cell.str "P"]]).products
      = [⟨0, "P", none, "Unité", 5, "OK", qOfInt 0, none, none⟩]
      ∧ qOfInt 7 ≠ qOfInt 0
      ∧ "ALERTE" ≠ "OK" := by
  refine ⟨by decide, by decide, by decide⟩

/-- C8, counterexample.  A row after the header whose single non-empty
string cell contains `TECHNICIENS DE SURFACE` (trimmed length well above
the threshold) is not treated as a site switch: the site stays at the
default `SIEGE`, the banner heuristic having excluded the keyword. -/
theorem siteBanner_keyword_not_switched :
    (importWorkersFromExcel 0 noCrash [] 0
        [[Cell.str "PRENOMS", Cell.str "NOMS"],
         [Cell.str "AAA TECHNICIENS DE SURFACE BBB"]]).scan.site = "SIEGE"
      ∧ nonEmptyCells [Cell.str "AAA TECHNICIENS DE SURFACE BBB"]
          = [Cell.str "AAA TECHNICIENS DE SURFACE BBB"]
      ∧ (jsTrim "AAA TECHNICIENS DE SURFACE BBB").data.length > 3
      ∧ "SIEGE" ≠ "AAA TECHNICIENS DE SURFACE BBB" := by
  refine ⟨by decide, by decide, by decide, by decide⟩

/-- C2, counterexample.  A product grid whose data rows all carry a code is
not idempotent: with rows (name A, code X), (name A, code Y), (name B,
code Y), the first run leaves a single record (B, Y) — the name fallback
and the full-overwrite update re-key the record twice — so the second run
finds neither code X nor name A and creates a new record. -/
theorem productImport_not_idempotent :
    ((pDataRows initPScan 0
        [[Cell.str "NOM DU PRODUIT", Cell.str "CODE"],
         [Cell.str "A", Cell.str "X"], [Cell.str "A", Cell.str "Y"], [Cell.str "B", Cell.str "Y"]]).all
      (fun pd => (codeKey pd).isSome) = true)
      ∧ ((importProductsFromExcel noCrash
            (importProductsFromExcel noCrash [] [] 0 0
              [[Cell.str "NOM DU PRODUIT", Cell.str "CODE"],
               [Cell.str "A", Cell.str "X"], [Cell.str "A", Cell.str "Y"], [Cell.str "B", Cell.str "Y"]]).products
            (importProductsFromExcel noCrash [] [] 0 0
              [[Cell.str "NOM DU PRODUIT", Cell.str "CODE"],
               [Cell.str "A", Cell.str "X"], [Cell.str "A", Cell.str "Y"], [Cell.str "B", Cell.str "Y"]]).categories
            (importProductsFromExcel noCrash [] [] 0 0
              [[Cell.str "NOM DU PRODUIT", Cell.str "CODE"],
               [Cell.str "A", Cell.str "X"], [Cell.str "A", Cell.str "Y"], [Cell.str "B", Cell.str "Y"]]).nextId
            (importProductsFromExcel noCrash [] [] 0 0
              [[Cell.str "NOM DU PRODUIT", Cell.str "CODE"],
               [Cell.str "A", Cell.str "X"], [Cell.str "A", Cell.str "Y"], [Cell.str "B", Cell.str "Y"]]).nextCatId
            [[Cell.str "NOM DU PRODUIT", Cell.str "CODE"],
             [Cell.str "A", Cell.str "X"], [Cell.str "A", Cell.str "Y"], [Cell.str "B", Cell.str "Y"]]).stats.created
          = 1) := by
  refine ⟨by decide, by decide⟩

/-- C6: the salary cell `"3 500,50"` (whitespace stripped, first comma
turned into a decimal point) parses to 3500.50 in both worker-import
implementations; any cell whose normalised text does not parse as a float
yields base salary 0; and on a full run such a row produces no error and a
worker with salary 0. -/
theorem salary_coercion
    (s : String) (hs : parseFloatQ (commaToDot (stripWs s)) = none) :
    svcParseSalary (Cell.str "3 500,50") = ⟨7001, 2⟩
      ∧ ctrlParseSalary (Cell.str "3 500,50") = ⟨7001, 2⟩
      ∧ svcParseSalary (Cell.str s) = qOfInt 0
      ∧ ctrlParseSalary (Cell.str s) = qOfInt 0
      ∧ (importWorkersFromExcel 0 noCrash [] 0
          [[Cell.str "PRENOMS", Cell.str "NOMS", Cell.str "SALAIRE"],
           [Cell.str "A", Cell.str "B", Cell.str "3 500,50"]]).stats.errors = []
      ∧ (importWorkersFromExcel 0 noCrash [] 0
          [[Cell.str "PRENOMS", Cell.str "NOMS", Cell.str "SALAIRE"],
           [Cell.str "A", Cell.str "B", Cell.str "3 500,50"]]).workers.map (fun w => w.salaire_base)
          = [⟨7001, 2⟩] := by
  refine ⟨by decide, by decide, ?_, ?_, by decide, by decide⟩
  · have h1 : svcParseSalary (Cell.str s) = jsOrZero (parseFloatQ (commaToDot (stripWs s))) := rfl
    rw [h1, hs]
    rfl
  · have h1 : ctrlParseSalary (Cell.str s)
        = if jsTruthy (Cell.str s) then (parseFloatQ (commaToDot (stripWs s))).getD (qOfInt 0)
          else qOfInt 0 := rfl
    rw [h1, hs]
    split <;> rfl

/-- C6, witness. -/
theorem salary_coercion_witness :
    parseFloatQ (commaToDot (stripWs "abc")) = none
      ∧ svcParseSalary (Cell.str "abc") = qOfInt 0 :=
  ⟨by decide, (salary_coercion "abc" (by decide)).2.2.1⟩

/-- C7, amended: `parseExcelDate` returns `null` on falsy input and
otherwise a `Date`; the result can only be an invalid date when the input
is a numeric serial whose converted timestamp overflows the `Date` range,
or a string with exactly three `/`-separated parts (the branch that skips
the `isNaN` guard); every other string yields a valid date or `null`. -/
theorem parseExcelDate_shape (c : Cell) :
    parseExcelDate c = none
      ∨ (∃ ms, parseExcelDate c = some (JSDate.valid ms))
      ∨ (parseExcelDate c = some JSDate.invalid
          ∧ ((∃ q, c = Cell.num q
                ∧ jsMaxDateMs < (jsRound (qMul (qMul (qSub q (qOfInt 25569)) (qOfInt 86400)) (qOfInt 1000))).natAbs)
             ∨ (∃ s, c = Cell.str s ∧ (jsSplit s '/').length = 3))) := by
  cases c with
  | num q =>
    by_cases ht : jsTruthy (Cell.num q)
    · by_cases hb : (jsRound (qMul (qMul (qSub q (qOfInt 25569)) (qOfInt 86400)) (qOfInt 1000))).natAbs ≤ jsMaxDateMs
      · refine Or.inr (Or.inl ⟨jsRound (qMul (qMul (qSub q (qOfInt 25569)) (qOfInt 86400)) (qOfInt 1000)), ?_⟩)
        simp [parseExcelDate, ht, jsNewDateMs, hb]
      · refine Or.inr (Or.inr ⟨?_, Or.inl ⟨q, rfl, by omega⟩⟩)
        simp [parseExcelDate, ht, jsNewDateMs, hb]
    · exact Or.inl (by simp [parseExcelDate, ht])
  | str s =>
    by_cases ht : jsTruthy (Cell.str s)
    · by_cases h3 : (jsSplit s '/').length = 3
      · have he : parseExcelDate (Cell.str s)
            = some (jsDateOfString ((jsSplit s '/').getD 2 "" ++ "-"
                ++ (jsSplit s '/').getD 1 "" ++ "-" ++ (jsSplit s '/').getD 0 "")) := by
          simp [parseExcelDate, ht, h3]
        rcases hD : jsDateOfString ((jsSplit s '/').getD 2 "" ++ "-"
            ++ (jsSplit s '/').getD 1 "" ++ "-" ++ (jsSplit s '/').getD 0 "") with ms | _
        · exact Or.inr (Or.inl ⟨ms, by rw [he, hD]⟩)
        · exact Or.inr (Or.inr ⟨by rw [he, hD], Or.inr ⟨s, rfl, h3⟩⟩)
      · have he : parseExcelDate (Cell.str s)
            = match jsDateOfString s with
              | JSDate.invalid => none
              | d => some d := by
          simp [parseExcelDate, ht, h3]
        rcases hD : jsDateOfString s with ms | _
        · exact Or.inr (Or.inl ⟨ms, by rw [he, hD]⟩)
        · exact Or.inl (by rw [he, hD])
    · exact Or.inl (by simp [parseExcelDate, ht])

/-- A record returned by the product lookup is a stored record. -/
theorem productLookup_mem (ps : List ProductRec) (pd : ProductData) (p : ProductRec)
    (h : productLookup ps pd = some p) : p ∈ ps := by
  unfold productLookup at h
  cases hk : codeKey pd with
  | some c =>
    rw [hk] at h
    simp only [] at h
    cases hf : ps.find? (fun x => x.code_produit == some c) with
    | some x =>
      simp only [hf, Option.some.injEq] at h
      exact h ▸ List.mem_of_find?_eq_some hf
    | none =>
      simp only [hf] at h
      exact List.mem_of_find?_eq_some h
  | none =>
    rw [hk] at h
    simp only [] at h
    exact List.mem_of_find?_eq_some h

/-- The create-or-update step never touches the category store. -/
theorem productUpsert_categories (st : PState) (pd : ProductData) :
    (productUpsert st pd).categories = st.categories := by
  unfold productUpsert
  cases productLookup st.products pd <;> rfl

/-- After the create-or-update step some stored product carries the row's
name, status, quantity, and (when present) category link. -/
theorem productUpsert_mem (st : PState) (pd : ProductData) :
    ∃ p ∈ (productUpsert st pd).products,
      p.nom = pd.nom ∧ p.statut = pd.statut ∧ p.quantite_actuelle = pd.quantite_actuelle
        ∧ ∀ cid, pd.category_id = some cid → p.category_id = some cid := by
  unfold productUpsert
  cases hl : productLookup st.products pd with
  | none =>
    refine ⟨newProduct st.nextId pd, ?_, rfl, rfl, rfl, ?_⟩
    · simp
    · intro cid hcid
      simp [newProduct, hcid]
  | some p =>
    refine ⟨applyProductUpdate p pd, ?_, rfl, rfl, rfl, ?_⟩
    · simp only [List.mem_map]
      exact ⟨p, productLookup_mem st.products pd p hl, by simp⟩
    · intro cid hcid
      simp [applyProductUpdate, hcid]

/-- C9: a data row after the header whose required cell is falsy — first
name or surname for workers, product name for products — is skipped
silently: the whole state (store, counters, errors, scan state) is
unchanged. -/
theorem required_cell_missing_skips :
    (∀ (now : Int) (crash : Nat → Option String) (st : WState) (i h p n : Nat) (row : List Cell),
      st.scan.headerIdx = some h → h < i →
      st.scan.colMap.prenom = some p → st.scan.colMap.nom = some n →
      wSiteBannerName row = none → isWorkerHeaderRow row = false →
      (jsTruthy (getCell row p) = false ∨ jsTruthy (getCell row n) = false) →
      processWorkerRow now crash st i row = st)
      ∧ (∀ (crash : Nat → Option String) (st : PState) (i h n : Nat) (row : List Cell),
          st.scan.headerIdx = some h → h < i →
          st.scan.colMap.nom = some n →
          isProductHeaderRow row = false →
          jsTruthy (getCell row n) = false →
          processProductRow crash st i row = st) := by
  constructor
  · intro now crash st i h p n row hh hi hp hn hsite hhdr hreq
    have hc : classifyW st.scan i row = WAction.skip := by
      unfold classifyW
      rw [hsite, hhdr, hh, hp, hn]
      simp only [Bool.false_eq_true, if_false, if_pos hi]
      rcases hreq with h1 | h1 <;> simp [h1]
    simp [processWorkerRow, hc]
  · intro crash st i h n row hh hi hn hhdr hreq
    have hc : classifyP st.scan i row = PAction.skip := by
      unfold classifyP
      rw [hhdr, hh, hn]
      simp only [Bool.false_eq_true, if_false, if_pos hi]
      simp [hreq]
    simp [processProductRow, hc]

/-- C9, witness. -/
theorem required_cell_missing_skips_witness :
    processWorkerRow 0 noCrash
        ⟨⟨"SIEGE", some 0, ⟨some 0, some 1, none, none, none, none, none⟩⟩, zeroStats, [], 0⟩ 1
        [Cell.str "", Cell.str "B"]
      = ⟨⟨"SIEGE", some 0, ⟨some 0, some 1, none, none, none, none, none⟩⟩, zeroStats, [], 0⟩
      ∧ processProductRow noCrash
          ⟨⟨some 0, ⟨none, some 0, none, none, none, none⟩⟩, zeroStats, [], [], 0, 0⟩ 1
          [Cell.str ""]
        = ⟨⟨some 0, ⟨none, some 0, none, none, none, none⟩⟩, zeroStats, [], [], 0, 0⟩ :=
  ⟨required_cell_missing_skips.1 0 noCrash _ 1 0 0 1 _ rfl (by decide) rfl rfl (by decide) (by decide)
      (Or.inl (by decide)),
   required_cell_missing_skips.2 noCrash _ 1 0 0 _ rfl (by decide) rfl (by decide) (by decide)⟩

/-- C10: for a data row with a truthy category cell, the trimmed name is
looked up among the stored categories; on a miss a category with that name
and description `'Importé via Excel'` is appended and the row's product is
linked to its id; on a hit no category is created and the existing id is
used. -/
theorem category_get_or_create
    (crash : Nat → Option String) (st : PState) (i : Nat) (row : List Cell)
    (pd : ProductData) (raw rawNom : String)
    (hc : classifyP st.scan i row = PAction.data pd (some raw) rawNom)
    (hcr : crash i = none) :
    (st.categories.find? (fun c => c.nom == jsTrim raw) = none →
      (processProductRow crash st i row).categories
          = st.categories ++ [⟨st.nextCatId, jsTrim raw, some "Importé via Excel"⟩]
        ∧ ∃ p ∈ (processProductRow crash st i row).products,
            p.category_id = some st.nextCatId ∧ p.nom = pd.nom)
      ∧ (∀ cat, st.categories.find? (fun c => c.nom == jsTrim raw) = some cat →
          (processProductRow crash st i row).categories = st.categories
            ∧ ∃ p ∈ (processProductRow crash st i row).products,
                p.category_id = some cat.id ∧ p.nom = pd.nom) := by
  have hstep : processProductRow crash st i row
      = productUpsert
          ((resolveCategory { st with stats := { st.stats with total := st.stats.total + 1 } } pd (some raw)).2)
          ((resolveCategory { st with stats := { st.stats with total := st.stats.total + 1 } } pd (some raw)).1) := by
    simp [processProductRow, hc, hcr]
  constructor
  · intro hnone
    have hres : resolveCategory { st with stats := { st.stats with total := st.stats.total + 1 } } pd (some raw)
        = ({ pd with category_id := some st.nextCatId },
           { st with
             stats := { st.stats with total := st.stats.total + 1 }
             categories := st.categories ++ [⟨st.nextCatId, jsTrim raw, some "Importé via Excel"⟩]
             nextCatId := st.nextCatId + 1 }) := by
      simp [resolveCategory, hnone]
    rw [hstep, hres]
    refine ⟨by rw [productUpsert_categories], ?_⟩
    obtain ⟨p, hmem, hnom, _, _, hcat⟩ := productUpsert_mem _ ({ pd with category_id := some st.nextCatId })
    exact ⟨p, hmem, hcat st.nextCatId rfl, hnom⟩
  · intro cat hcat
    have hres : resolveCategory { st with stats := { st.stats with total := st.stats.total + 1 } } pd (some raw)
        = ({ pd with category_id := some cat.id },
           { st with stats := { st.stats with total := st.stats.total + 1 } }) := by
      simp [resolveCategory, hcat]
    rw [hstep, hres]
    refine ⟨by rw [productUpsert_categories], ?_⟩
    obtain ⟨p, hmem, hnom, _, _, hcid⟩ := productUpsert_mem _ ({ pd with category_id := some cat.id })
    exact ⟨p, hmem, hcid cat.id rfl, hnom⟩

/-- C10, witness. -/
theorem category_get_or_create_witness :
    (processProductRow noCrash
        ⟨⟨some 0, ⟨none, some 0, some 1, none, none, none⟩⟩, zeroStats, [], [], 0, 5⟩ 1
        [Cell.str "P", Cell.str "Cat"]).categories
      = [⟨5, jsTrim "Cat", some "Importé via Excel"⟩]
      ∧ ∃ p ∈ (processProductRow noCrash
          ⟨⟨some 0, ⟨none, some 0, some 1, none, none, none⟩⟩, zeroStats, [], [], 0, 5⟩ 1
          [Cell.str "P", Cell.str "Cat"]).products,
          p.category_id = some 5 ∧ p.nom = "P" :=
  (category_get_or_create noCrash
      ⟨⟨some 0, ⟨none, some 0, some 1, none, none, none⟩⟩, zeroStats, [], [], 0, 5⟩ 1
      [Cell.str "P", Cell.str "Cat"]
      ⟨"P", none, "Unité", 5, "OK", qOfInt 0, none, none⟩ "Cat" "P" (by decide) rfl).1 (by decide)

/-- C8, amended: a row after the header with exactly one non-empty cell, a
string of trimmed length above 3, switches the current site to the trimmed
value and is not processed as worker data — unless the row carries the
exact header token `PRENOMS` or the cell contains `TECHNICIENS DE
SURFACE`, the two exclusions of the banner heuristic (see the
counterexample for the excluded case). -/
theorem siteBanner_switch
    (now : Int) (crash : Nat → Option String) (st : WState) (i h : Nat) (s : String)
    (row : List Cell)
    (_hh : st.scan.headerIdx = some h) (_hi : h < i)
    (hne : nonEmptyCells row = [Cell.str s])
    (hlen : (jsTrim s).data.length > 3)
    (hpr : (rowStrings row).contains "PRENOMS" = false)
    (htech : strIncludes (jsTrim s) "TECHNICIENS DE SURFACE" = false) :
    processWorkerRow now crash st i row = { st with scan := { st.scan with site := jsTrim s } } := by
  have hb : wSiteBannerName row = some (jsTrim s) := by
    have hpr' : "PRENOMS" ∉ rowStrings row := by simpa using hpr
    unfold wSiteBannerName
    rw [hne]
    simp [cellToString, hlen, hpr', htech]
    exact hlen
  have hc : classifyW st.scan i row = WAction.setSite (jsTrim s) := by
    unfold classifyW
    rw [hb]
  simp [processWorkerRow, hc]

/-- C8, witness. -/
theorem siteBanner_switch_witness :
    processWorkerRow 0 noCrash
        ⟨⟨"SIEGE", some 0, ⟨some 0, some 1, none, none, none, none, none⟩⟩, zeroStats, [], 0⟩ 1
        [Cell.str " CHANTIER NORD "]
      = ⟨⟨jsTrim " CHANTIER NORD ", some 0, ⟨some 0, some 1, none, none, none, none, none⟩⟩,
         zeroStats, [], 0⟩ :=
  siteBanner_switch 0 noCrash
    ⟨⟨"SIEGE", some 0, ⟨some 0, some 1, none, none, none, none, none⟩⟩, zeroStats, [], 0⟩ 1 0
    " CHANTIER NORD " [Cell.str " CHANTIER NORD "]
    rfl (by decide) (by decide) (by decide) (by decide) (by decide)

/-- A product data action always carries the `productData` built from the
row (in particular its `category_id` key is still absent at that point). -/
theorem classifyP_data_shape {sc : PScan} {i : Nat} {row : List Cell} {pd : ProductData}
    {catRaw : Option String} {rawNom : String}
    (h : classifyP sc i row = PAction.data pd catRaw rawNom) :
    ∃ n, sc.colMap.nom = some n ∧ pd = buildProductData sc n row
      ∧ catRaw = catCellValue sc row := by
  unfold classifyP at h
  split at h
  · cases h
  · split at h
    · cases h
    · split at h
      · split at h
        · split at h
          · rename_i hhdr x1 hsome hlt x2 n hn htr
            injection h with h1 h2 h3
            exact ⟨n, hn, h1.symm, h2.symm⟩
          · cases h
        · cases h
      · cases h

/-- The product lookup ignores the `category_id` field. -/
theorem productLookup_category_congr (ps : List ProductRec) (pd : ProductData) (x : Option Nat) :
    productLookup ps { pd with category_id := x } = productLookup ps pd := rfl

/-- The `productData` built from a row has no `category_id` key yet. -/
theorem buildProductData_category (sc : PScan) (n : Nat) (row : List Cell) :
    (buildProductData sc n row).category_id = none := rfl

/-- The product lookup depends only on the name and the code of the
assembled `productData`. -/
theorem productLookup_keys_congr (ps : List ProductRec) (pd₁ pd₂ : ProductData)
    (hn : pd₁.nom = pd₂.nom) (hc : pd₁.code_produit = pd₂.code_produit) :
    productLookup ps pd₁ = productLookup ps pd₂ := by
  unfold productLookup codeKey
  rw [hn, hc]

/-- C3, amended.  On a hit, the worker update writes the current site and
the row's present fields only: address, contact and birth date fall back
to the stored values when the row's value is absent or empty, the salary
falls back when the parsed salary is not positive, and name, CIN, status,
position, hire date and e-mail are never written.  The product update, by
contrast, overwrites every constructed field — the stored quantity becomes
0, the status `OK`, and name, description and code take the row's values
(absent ones becoming null) — preserving only the category link when no
category cell is present.  Records other than the matched one are
untouched. -/
theorem upsert_field_frame :
    (∀ (now : Int) (crash : Nat → Option String) (st : WState) (i : Nat) (row : List Cell)
       (wd : WorkerData) (pn nm : String) (w : WorkerRec),
      classifyW st.scan i row = WAction.data wd pn nm →
      crash i = none →
      workerLookup st.workers wd = some w →
      ∃ f, (processWorkerRow now crash st i row).workers = st.workers.map f
        ∧ (∀ x, x.id ≠ w.id → f x = x)
        ∧ (∀ x : WorkerRec, (f x).prenom = x.prenom ∧ (f x).nom = x.nom ∧ (f x).cin = x.cin
            ∧ (f x).statut = x.statut ∧ (f x).date_embauche = x.date_embauche
            ∧ (f x).email = x.email ∧ (f x).poste = x.poste
            ∧ (x.id = w.id → (f x).site_affectation = wd.site_affectation)
            ∧ (optTruthy wd.adresse = false → (f x).adresse = x.adresse)
            ∧ (optTruthy wd.contact = false → (f x).contact = x.contact)
            ∧ (wd.date_naissance = none → (f x).date_naissance = x.date_naissance)
            ∧ (qIsPos wd.salaire_base = false → (f x).salaire_base = x.salaire_base)))
      ∧ (∀ (crash : Nat → Option String) (st : PState) (i : Nat) (row : List Cell)
           (pd : ProductData) (catRaw : Option String) (rawNom : String) (p : ProductRec),
          classifyP st.scan i row = PAction.data pd catRaw rawNom →
          crash i = none →
          productLookup st.products pd = some p →
          ∃ f, (processProductRow crash st i row).products = st.products.map f
            ∧ (∀ x, x.id ≠ p.id → f x = x)
            ∧ (∀ x : ProductRec, x.id = p.id →
                (f x).quantite_actuelle = qOfInt 0 ∧ (f x).statut = "OK"
                  ∧ (f x).nom = pd.nom ∧ (f x).description = pd.description
                  ∧ (f x).code_produit = pd.code_produit
                  ∧ (catRaw = none → (f x).category_id = x.category_id))) := by
  constructor
  · intro now crash st i row wd pn nm w hc hcr hl
    refine ⟨fun x => if x.id = w.id then applyWorkerUpdate x wd else x, ?_, ?_, ?_⟩
    · simp [processWorkerRow, hc, hcr, workerUpsert, hl]
    · intro x hx
      simp [hx]
    · intro x
      by_cases hx : x.id = w.id
      · simp only [if_pos hx]
        refine ⟨rfl, rfl, rfl, rfl, rfl, rfl, rfl, fun _ => rfl, ?_, ?_, ?_, ?_⟩
        · intro ha; simp [applyWorkerUpdate, ha]
        · intro hcon; simp [applyWorkerUpdate, hcon]
        · intro hd; simp [applyWorkerUpdate, hd]
        · intro hs; simp [applyWorkerUpdate, hs]
      · simp [if_neg hx, hx]
  · intro crash st i row pd catRaw rawNom p hc hcr hl
    obtain ⟨n, hn, hpd, hcat⟩ := classifyP_data_shape hc
    have hq : pd.quantite_actuelle = qOfInt 0 := by rw [hpd]; rfl
    have hst : pd.statut = "OK" := by rw [hpd]; rfl
    have hpdnone : pd.category_id = none := by rw [hpd]; rfl
    have hstep : processProductRow crash st i row
        = productUpsert
            ((resolveCategory { st with stats := { st.stats with total := st.stats.total + 1 } } pd catRaw).2)
            ((resolveCategory { st with stats := { st.stats with total := st.stats.total + 1 } } pd catRaw).1) := by
      simp [processProductRow, hc, hcr]
    have hres : (resolveCategory { st with stats := { st.stats with total := st.stats.total + 1 } } pd catRaw).1.nom = pd.nom
        ∧ (resolveCategory { st with stats := { st.stats with total := st.stats.total + 1 } } pd catRaw).1.description = pd.description
        ∧ (resolveCategory { st with stats := { st.stats with total := st.stats.total + 1 } } pd catRaw).1.statut = pd.statut
        ∧ (resolveCategory { st with stats := { st.stats with total := st.stats.total + 1 } } pd catRaw).1.quantite_actuelle = pd.quantite_actuelle
        ∧ (resolveCategory { st with stats := { st.stats with total := st.stats.total + 1 } } pd catRaw).1.code_produit = pd.code_produit
        ∧ (resolveCategory { st with stats := { st.stats with total := st.stats.total + 1 } } pd catRaw).2.products = st.products
        ∧ (catRaw = none → (resolveCategory { st with stats := { st.stats with total := st.stats.total + 1 } } pd catRaw).1.category_id = none) := by
      cases catRaw with
      | none => exact ⟨rfl, rfl, rfl, rfl, rfl, rfl, fun _ => hpdnone⟩
      | some raw =>
        unfold resolveCategory
        cases hfind : ({ st with stats := { st.stats with total := st.stats.total + 1 } } : PState).categories.find?
            (fun c => c.nom == jsTrim raw) with
        | some cat => simp [hfind]
        | none => simp [hfind]
    obtain ⟨he1, he2, he3, he4, he5, he6, he7⟩ := hres
    have hl' : productLookup st.products
        ((resolveCategory { st with stats := { st.stats with total := st.stats.total + 1 } } pd catRaw).1) = some p := by
      rw [productLookup_keys_congr st.products _ pd he1 he5]
      exact hl
    refine ⟨fun x => if x.id = p.id then
        applyProductUpdate x ((resolveCategory { st with stats := { st.stats with total := st.stats.total + 1 } } pd catRaw).1)
      else x, ?_, ?_, ?_⟩
    · rw [hstep]
      unfold productUpsert
      rw [he6, hl']
    · intro x hx
      simp [hx]
    · intro x hx
      simp only [if_pos hx, applyProductUpdate]
      refine ⟨by rw [he4, hq], by rw [he3, hst], he1, he2, he5, ?_⟩
      intro hnone
      simp [he7 hnone]

/-- C3, witness (worker half, on a concrete store and row). -/
theorem upsert_field_frame_witness :
    ∃ f, (processWorkerRow 0 noCrash
        ⟨⟨"SIEGE", some 0, ⟨some 0, some 1, some 2, none, none, none, none⟩⟩, zeroStats,
         [⟨0, "A", "B", "Technicien de surface", "SIEGE", "ACTIF", JSDate.valid 0, none, none,
           some "7", none, none, qOfInt 0, none⟩], 1⟩ 1
        [Cell.str "A", Cell.str "B", Cell.str "7"]).workers
      = [⟨0, "A", "B", "Technicien de surface", "SIEGE", "ACTIF", JSDate.valid 0, none, none,
          some "7", none, none, qOfInt 0, none⟩].map f
      ∧ (∀ x, x.id ≠ (0 : Nat) → f x = x)
      ∧ (∀ x : WorkerRec, (f x).prenom = x.prenom ∧ (f x).nom = x.nom ∧ (f x).cin = x.cin
          ∧ (f x).statut = x.statut ∧ (f x).date_embauche = x.date_embauche
          ∧ (f x).email = x.email ∧ (f x).poste = x.poste
          ∧ (x.id = (0 : Nat) → (f x).site_affectation = "SIEGE")
          ∧ (optTruthy none = false → (f x).adresse = x.adresse)
          ∧ (optTruthy none = false → (f x).contact = x.contact)
          ∧ ((none : Option JSDate) = none → (f x).date_naissance = x.date_naissance)
          ∧ (qIsPos (qOfInt 0) = false → (f x).salaire_base = x.salaire_base)) :=
  upsert_field_frame.1 0 noCrash
    ⟨⟨"SIEGE", some 0, ⟨some 0, some 1, some 2, none, none, none, none⟩⟩, zeroStats,
     [⟨0, "A", "B", "Technicien de surface", "SIEGE", "ACTIF", JSDate.valid 0, none, none,
       some "7", none, none, qOfInt 0, none⟩], 1⟩ 1
    [Cell.str "A", Cell.str "B", Cell.str "7"]
    ⟨"A", "B", "SIEGE", none, some "7", none, none, qOfInt 0⟩ "A" "B"
    ⟨0, "A", "B", "Technicien de surface", "SIEGE", "ACTIF", JSDate.valid 0, none, none,
      some "7", none, none, qOfInt 0, none⟩
    (by decide) rfl (by decide)

/-- Category resolution leaves the scan state, the product store and the
statistics untouched. -/
theorem resolveCategory_frame (st : PState) (pd : ProductData) (c : Option String) :
    (resolveCategory st pd c).2.scan = st.scan
      ∧ (resolveCategory st pd c).2.products = st.products
      ∧ (resolveCategory st pd c).2.stats = st.stats
      ∧ (resolveCategory st pd c).2.nextId = st.nextId := by
  unfold resolveCategory
  cases c with
  | none => exact ⟨rfl, rfl, rfl, rfl⟩
  | some raw =>
    cases hf : st.categories.find? (fun x => x.nom == jsTrim raw) with
    | some cat => simp [hf]
    | none => simp [hf]

/-- The worker create-or-update step leaves the scan state untouched. -/
theorem workerUpsert_scan (now : Int) (st : WState) (wd : WorkerData) :
    (workerUpsert now st wd).scan = st.scan := by
  unfold workerUpsert
  cases workerLookup st.workers wd <;> rfl

/-- The product create-or-update step leaves the scan state and the
category store untouched. -/
theorem productUpsert_scan (st : PState) (pd : ProductData) :
    (productUpsert st pd).scan = st.scan := by
  unfold productUpsert
  cases productLookup st.products pd <;> rfl

/-- The scan state evolves independently of the store and the statistics. -/
theorem processW_scan (now : Int) (crash : Nat → Option String) (st : WState) (i : Nat)
    (row : List Cell) :
    (processWorkerRow now crash st i row).scan = wScanNext st.scan i row := by
  cases hc : classifyW st.scan i row with
  | skip => simp [processWorkerRow, wScanNext, hc]
  | setSite s => simp [processWorkerRow, wScanNext, hc]
  | header cm => simp [processWorkerRow, wScanNext, hc]
  | data wd pn nm =>
    cases hcr : crash i with
    | some m => simp [processWorkerRow, wScanNext, hc, hcr]
    | none =>
      simp only [processWorkerRow, wScanNext, hc, hcr]
      rw [workerUpsert_scan]

/-- Product version of `processW_scan`. -/
theorem processP_scan (crash : Nat → Option String) (st : PState) (i : Nat) (row : List Cell) :
    (processProductRow crash st i row).scan = pScanNext st.scan i row := by
  cases hc : classifyP st.scan i row with
  | skip => simp [processProductRow, pScanNext, hc]
  | header cm => simp [processProductRow, pScanNext, hc]
  | data pd catRaw rawNom =>
    cases hcr : crash i with
    | some m =>
      simp only [processProductRow, pScanNext, hc, hcr]
      exact (resolveCategory_frame _ pd catRaw).1
    | none =>
      simp only [processProductRow, pScanNext, hc, hcr]
      rw [productUpsert_scan]
      exact (resolveCategory_frame _ pd catRaw).1

/-- Before any header row has been seen, a non-header row changes nothing
but the current site. -/
theorem processW_no_header (now : Int) (crash : Nat → Option String) (st : WState) (i : Nat)
    (row : List Cell) (h : st.scan.headerIdx = none) (hr : isWorkerHeaderRow row = false) :
    (processWorkerRow now crash st i row).workers = st.workers
      ∧ (processWorkerRow now crash st i row).stats = st.stats
      ∧ (processWorkerRow now crash st i row).nextId = st.nextId
      ∧ (processWorkerRow now crash st i row).scan.headerIdx = none := by
  have hc : classifyW st.scan i row = WAction.skip
      ∨ ∃ s, classifyW st.scan i row = WAction.setSite s := by
    unfold classifyW
    cases hb : wSiteBannerName row with
    | some s => exact Or.inr ⟨s, rfl⟩
    | none => rw [hr, h]; exact Or.inl (by simp)
  rcases hc with hc | ⟨s, hc⟩ <;> simp [processWorkerRow, hc, h]

/-- Product version of `processW_no_header` (no site heuristic: nothing at
all changes before the first header). -/
theorem processP_no_header (crash : Nat → Option String) (st : PState) (i : Nat)
    (row : List Cell) (h : st.scan.headerIdx = none) (hr : isProductHeaderRow row = false) :
    processProductRow crash st i row = st := by
  have hc : classifyP st.scan i row = PAction.skip := by
    unfold classifyP
    rw [hr, h]
    simp
  simp [processProductRow, hc]

/-- Iterated form of `processW_no_header`. -/
theorem runW_no_header (now : Int) (crash : Nat → Option String) :
    ∀ (rows : List (List Cell)) (st : WState) (i : Nat),
      (∀ r ∈ rows, isWorkerHeaderRow r = false) → st.scan.headerIdx = none →
      (runW now crash st i rows).workers = st.workers
        ∧ (runW now crash st i rows).stats = st.stats
        ∧ (runW now crash st i rows).nextId = st.nextId
        ∧ (runW now crash st i rows).scan.headerIdx = none := by
  intro rows
  induction rows with
  | nil => intro st i _ h; exact ⟨rfl, rfl, rfl, h⟩
  | cons row rest ih =>
    intro st i hall h
    have hstep := processW_no_header now crash st i row h (hall row (by simp))
    have hrec := ih (processWorkerRow now crash st i row) (i + 1)
      (fun r hr => hall r (by simp [hr])) hstep.2.2.2
    exact ⟨hrec.1.trans hstep.1, hrec.2.1.trans hstep.2.1, hrec.2.2.1.trans hstep.2.2.1,
      hrec.2.2.2⟩

/-- Iterated form of `processP_no_header`. -/
theorem runP_no_header (crash : Nat → Option String) :
    ∀ (rows : List (List Cell)) (st : PState) (i : Nat),
      (∀ r ∈ rows, isProductHeaderRow r = false) → st.scan.headerIdx = none →
      runP crash st i rows = st := by
  intro rows
  induction rows with
  | nil => intro st i _ _; rfl
  | cons row rest ih =>
    intro st i hall h
    have hstep := processP_no_header crash st i row h (hall row (by simp))
    show runP crash (processProductRow crash st i row) (i + 1) rest = st
    rw [hstep]
    exact ih st (i + 1) (fun r hr => hall r (by simp [hr])) h

/-- The loop splits over a decomposition of the grid. -/
theorem runW_append (now : Int) (crash : Nat → Option String) :
    ∀ (pre suf : List (List Cell)) (st : WState) (i : Nat),
      runW now crash st i (pre ++ suf) = runW now crash (runW now crash st i pre) (i + pre.length) suf := by
  intro pre
  induction pre with
  | nil => intro suf st i; simp [runW]
  | cons row rest ih =>
    intro suf st i
    simp only [List.cons_append, runW, List.length_cons, List.append_eq]
    rw [ih]
    congr 1
    omega

/-- Product version of `runW_append`. -/
theorem runP_append (crash : Nat → Option String) :
    ∀ (pre suf : List (List Cell)) (st : PState) (i : Nat),
      runP crash st i (pre ++ suf) = runP crash (runP crash st i pre) (i + pre.length) suf := by
  intro pre
  induction pre with
  | nil => intro suf st i; simp [runP]
  | cons row rest ih =>
    intro suf st i
    simp only [List.cons_append, runP, List.length_cons, List.append_eq]
    rw [ih]
    congr 1
    omega

/-- C1, amended: in the two service imports no record is created or updated
and no row counted while processing rows that precede the first recognized
header row — running on `pre ++ rest` with a header-free `pre` is the same
as running on `rest` from an untouched store with zero statistics (only
the scan state may have moved).  The claim's extension to the duplicate
implementation in `worker.controller.js` fails: see the counterexample, where a
worker is created with no header row anywhere. -/
theorem header_gating :
    (∀ (now : Int) (crash : Nat → Option String) (w0 : List WorkerRec) (n0 : Nat)
       (pre rest : List (List Cell)),
      (∀ r ∈ pre, isWorkerHeaderRow r = false) →
      ∃ sc : WScan, sc.headerIdx = none
        ∧ importWorkersFromExcel now crash w0 n0 (pre ++ rest)
            = runW now crash ⟨sc, zeroStats, w0, n0⟩ pre.length rest)
      ∧ (∀ (crash : Nat → Option String) (p0 : List ProductRec) (c0 : List CategoryRec)
           (ni nc : Nat) (pre rest : List (List Cell)),
          (∀ r ∈ pre, isProductHeaderRow r = false) →
          ∃ sc : PScan, sc.headerIdx = none
            ∧ importProductsFromExcel crash p0 c0 ni nc (pre ++ rest)
                = runP crash ⟨sc, zeroStats, p0, c0, ni, nc⟩ pre.length rest) := by
  constructor
  · intro now crash w0 n0 pre rest hpre
    obtain ⟨hw, hs, hn, hh⟩ :=
      runW_no_header now crash pre ⟨initWScan, zeroStats, w0, n0⟩ 0 hpre rfl
    refine ⟨(runW now crash ⟨initWScan, zeroStats, w0, n0⟩ 0 pre).scan, hh, ?_⟩
    unfold importWorkersFromExcel
    rw [runW_append]
    have he : runW now crash ⟨initWScan, zeroStats, w0, n0⟩ 0 pre
        = ⟨(runW now crash ⟨initWScan, zeroStats, w0, n0⟩ 0 pre).scan,
           (runW now crash ⟨initWScan, zeroStats, w0, n0⟩ 0 pre).stats,
           (runW now crash ⟨initWScan, zeroStats, w0, n0⟩ 0 pre).workers,
           (runW now crash ⟨initWScan, zeroStats, w0, n0⟩ 0 pre).nextId⟩ := rfl
    rw [he, hw, hs, hn, Nat.zero_add]
  · intro crash p0 c0 ni nc pre rest hpre
    have hrun := runP_no_header crash pre ⟨initPScan, zeroStats, p0, c0, ni, nc⟩ 0 hpre rfl
    refine ⟨initPScan, rfl, ?_⟩
    unfold importProductsFromExcel
    rw [runP_append, hrun, Nat.zero_add]

/-- C1, witness. -/
theorem header_gating_witness :
    (∃ sc : WScan, sc.headerIdx = none
      ∧ importWorkersFromExcel 0 noCrash [] 0 ([[Cell.str "Alpha"]] ++ [])
          = runW 0 noCrash ⟨sc, zeroStats, [], 0⟩ [[Cell.str "Alpha"]].length [])
      ∧ (∃ sc : PScan, sc.headerIdx = none
          ∧ importProductsFromExcel noCrash [] [] 0 0 ([[Cell.str "Alpha"]] ++ [])
              = runP noCrash ⟨sc, zeroStats, [], [], 0, 0⟩ [[Cell.str "Alpha"]].length []) :=
  ⟨header_gating.1 0 noCrash [] 0 [[Cell.str "Alpha"]] [] (by decide),
   header_gating.2 noCrash [] [] 0 0 [[Cell.str "Alpha"]] [] (by decide)⟩

/-- Each processed row adds one to `total` and to exactly one of `created`,
`updated`, `errors` (worker loop). -/
theorem processW_stats_inv (now : Int) (crash : Nat → Option String) (st : WState) (i : Nat)
    (row : List Cell)
    (h : st.stats.errors.length + st.stats.created + st.stats.updated = st.stats.total) :
    (processWorkerRow now crash st i row).stats.errors.length
        + (processWorkerRow now crash st i row).stats.created
        + (processWorkerRow now crash st i row).stats.updated
      = (processWorkerRow now crash st i row).stats.total := by
  cases hc : classifyW st.scan i row with
  | skip => simpa [processWorkerRow, hc] using h
  | setSite s => simpa [processWorkerRow, hc] using h
  | header cm => simpa [processWorkerRow, hc] using h
  | data wd pn nm =>
    cases hcr : crash i with
    | some m =>
      simp only [processWorkerRow, hc, hcr]
      simp
      omega
    | none =>
      simp only [processWorkerRow, hc, hcr]
      unfold workerUpsert
      cases hl : workerLookup st.workers wd <;> simp <;> omega

/-- Product version of `processW_stats_inv`. -/
theorem processP_stats_inv (crash : Nat → Option String) (st : PState) (i : Nat)
    (row : List Cell)
    (h : st.stats.errors.length + st.stats.created + st.stats.updated = st.stats.total) :
    (processProductRow crash st i row).stats.errors.length
        + (processProductRow crash st i row).stats.created
        + (processProductRow crash st i row).stats.updated
      = (processProductRow crash st i row).stats.total := by
  cases hc : classifyP st.scan i row with
  | skip => simpa [processProductRow, hc] using h
  | header cm => simpa [processProductRow, hc] using h
  | data pd catRaw rawNom =>
    have hfr := (resolveCategory_frame
      { st with stats := { st.stats with total := st.stats.total + 1 } } pd catRaw).2.2.1
    cases hcr : crash i with
    | some m =>
      simp only [processProductRow, hc, hcr]
      simp [hfr]
      omega
    | none =>
      simp only [processProductRow, hc, hcr]
      unfold productUpsert
      cases hl : productLookup (resolveCategory
          { st with stats := { st.stats with total := st.stats.total + 1 } } pd catRaw).2.products
          (resolveCategory { st with stats := { st.stats with total := st.stats.total + 1 } } pd catRaw).1 <;>
        simp [hl, hfr] <;> omega

/-- Every error string a worker row can add names the row it came from. -/
theorem processW_errors (now : Int) (crash : Nat → Option String) (st : WState) (i : Nat)
    (row : List Cell) :
    ∀ e ∈ (processWorkerRow now crash st i row).stats.errors,
      e ∈ st.stats.errors ∨ ∃ m pn nm, crash i = some m ∧ e = wErrMsg i pn nm m := by
  intro e he
  cases hc : classifyW st.scan i row with
  | skip => rw [processWorkerRow, hc] at he; exact Or.inl he
  | setSite s => rw [processWorkerRow, hc] at he; exact Or.inl he
  | header cm => rw [processWorkerRow, hc] at he; exact Or.inl he
  | data wd pn nm =>
    cases hcr : crash i with
    | some m =>
      simp only [processWorkerRow, hc, hcr] at he
      simp at he
      rcases he with he | he
      · exact Or.inl he
      · exact Or.inr ⟨m, pn, nm, rfl, he⟩
    | none =>
      simp only [processWorkerRow, hc, hcr] at he
      unfold workerUpsert at he
      cases hl : workerLookup st.workers wd <;> rw [hl] at he <;> simp at he <;> exact Or.inl he

/-- Product version of `processW_errors`. -/
theorem processP_errors (crash : Nat → Option String) (st : PState) (i : Nat)
    (row : List Cell) :
    ∀ e ∈ (processProductRow crash st i row).stats.errors,
      e ∈ st.stats.errors ∨ ∃ m nm, crash i = some m ∧ e = pErrMsg i nm m := by
  intro e he
  cases hc : classifyP st.scan i row with
  | skip => rw [processProductRow, hc] at he; exact Or.inl he
  | header cm => rw [processProductRow, hc] at he; exact Or.inl he
  | data pd catRaw rawNom =>
    have hfr := (resolveCategory_frame
      { st with stats := { st.stats with total := st.stats.total + 1 } } pd catRaw).2.2.1
    cases hcr : crash i with
    | some m =>
      simp only [processProductRow, hc, hcr] at he
      rw [hfr] at he
      simp at he
      rcases he with he | he
      · exact Or.inl he
      · exact Or.inr ⟨m, rawNom, rfl, he⟩
    | none =>
      simp only [processProductRow, hc, hcr] at he
      unfold productUpsert at he
      cases hl : productLookup (resolveCategory
          { st with stats := { st.stats with total := st.stats.total + 1 } } pd catRaw).2.products
          (resolveCategory { st with stats := { st.stats with total := st.stats.total + 1 } } pd catRaw).1 <;>
        rw [hl] at he <;> simp [hfr] at he <;> exact Or.inl he

/-- Iterated form of `processW_stats_inv`. -/
theorem runW_stats_inv (now : Int) (crash : Nat → Option String) :
    ∀ (rows : List (List Cell)) (st : WState) (i : Nat),
      st.stats.errors.length + st.stats.created + st.stats.updated = st.stats.total →
      (runW now crash st i rows).stats.errors.length + (runW now crash st i rows).stats.created
          + (runW now crash st i rows).stats.updated
        = (runW now crash st i rows).stats.total := by
  intro rows
  induction rows with
  | nil => intro st i h; exact h
  | cons row rest ih =>
    intro st i h
    exact ih (processWorkerRow now crash st i row) (i + 1) (processW_stats_inv now crash st i row h)

/-- Iterated form of `processP_stats_inv`. -/
theorem runP_stats_inv (crash : Nat → Option String) :
    ∀ (rows : List (List Cell)) (st : PState) (i : Nat),
      st.stats.errors.length + st.stats.created + st.stats.updated = st.stats.total →
      (runP crash st i rows).stats.errors.length + (runP crash st i rows).stats.created
          + (runP crash st i rows).stats.updated
        = (runP crash st i rows).stats.total := by
  intro rows
  induction rows with
  | nil => intro st i h; exact h
  | cons row rest ih =>
    intro st i h
    exact ih (processProductRow crash st i row) (i + 1) (processP_stats_inv crash st i row h)

/-- Iterated form of `processW_errors`. -/
theorem runW_errors (now : Int) (crash : Nat → Option String) :
    ∀ (rows : List (List Cell)) (st : WState) (i : Nat),
      ∀ e ∈ (runW now crash st i rows).stats.errors,
        e ∈ st.stats.errors
          ∨ ∃ j m pn nm, i ≤ j ∧ j < i + rows.length ∧ crash j = some m ∧ e = wErrMsg j pn nm m := by
  intro rows
  induction rows with
  | nil => intro st i e he; exact Or.inl he
  | cons row rest ih =>
    intro st i e he
    rcases ih (processWorkerRow now crash st i row) (i + 1) e he with h1 | ⟨j, m, pn, nm, hj1, hj2, hcr, hfmt⟩
    · rcases processW_errors now crash st i row e h1 with h2 | ⟨m, pn, nm, hcr, hfmt⟩
      · exact Or.inl h2
      · exact Or.inr ⟨i, m, pn, nm, le_refl i, by simp, hcr, hfmt⟩
    · exact Or.inr ⟨j, m, pn, nm, by omega, by simp; omega, hcr, hfmt⟩

/-- Iterated form of `processP_errors`. -/
theorem runP_errors (crash : Nat → Option String) :
    ∀ (rows : List (List Cell)) (st : PState) (i : Nat),
      ∀ e ∈ (runP crash st i rows).stats.errors,
        e ∈ st.stats.errors
          ∨ ∃ j m nm, i ≤ j ∧ j < i + rows.length ∧ crash j = some m ∧ e = pErrMsg j nm m := by
  intro rows
  induction rows with
  | nil => intro st i e he; exact Or.inl he
  | cons row rest ih =>
    intro st i e he
    rcases ih (processProductRow crash st i row) (i + 1) e he with h1 | ⟨j, m, nm, hj1, hj2, hcr, hfmt⟩
    · rcases processP_errors crash st i row e h1 with h2 | ⟨m, nm, hcr, hfmt⟩
      · exact Or.inl h2
      · exact Or.inr ⟨i, m, nm, le_refl i, by simp, hcr, hfmt⟩
    · exact Or.inr ⟨j, m, nm, by omega, by simp; omega, hcr, hfmt⟩

/-- C5: for every grid and store behaviour,
`errors.length + created + updated ≤ total` (the run in fact maintains
equality), and every error string is the message
`Ligne N (...): ...` built from the 1-based index of the row whose store
write threw. -/
theorem stats_accounting (now : Int) (crash : Nat → Option String) (w0 : List WorkerRec)
    (n0 : Nat) (p0 : List ProductRec) (c0 : List CategoryRec) (ni nc : Nat)
    (grid : List (List Cell)) :
    ((importWorkersFromExcel now crash w0 n0 grid).stats.errors.length
        + (importWorkersFromExcel now crash w0 n0 grid).stats.created
        + (importWorkersFromExcel now crash w0 n0 grid).stats.updated
      ≤ (importWorkersFromExcel now crash w0 n0 grid).stats.total)
      ∧ (∀ e ∈ (importWorkersFromExcel now crash w0 n0 grid).stats.errors,
          ∃ j m pn nm, j < grid.length ∧ crash j = some m ∧ e = wErrMsg j pn nm m)
      ∧ ((importProductsFromExcel crash p0 c0 ni nc grid).stats.errors.length
          + (importProductsFromExcel crash p0 c0 ni nc grid).stats.created
          + (importProductsFromExcel crash p0 c0 ni nc grid).stats.updated
        ≤ (importProductsFromExcel crash p0 c0 ni nc grid).stats.total)
      ∧ (∀ e ∈ (importProductsFromExcel crash p0 c0 ni nc grid).stats.errors,
          ∃ j m nm, j < grid.length ∧ crash j = some m ∧ e = pErrMsg j nm m) := by
  refine ⟨?_, ?_, ?_, ?_⟩
  · exact le_of_eq (runW_stats_inv now crash grid ⟨initWScan, zeroStats, w0, n0⟩ 0 rfl)
  · intro e he
    rcases runW_errors now crash grid ⟨initWScan, zeroStats, w0, n0⟩ 0 e he with h1 | ⟨j, m, pn, nm, _, hj2, hcr, hfmt⟩
    · cases h1
    · exact ⟨j, m, pn, nm, by omega, hcr, hfmt⟩
  · exact le_of_eq (runP_stats_inv crash grid ⟨initPScan, zeroStats, p0, c0, ni, nc⟩ 0 rfl)
  · intro e he
    rcases runP_errors crash grid ⟨initPScan, zeroStats, p0, c0, ni, nc⟩ 0 e he with h1 | ⟨j, m, nm, _, hj2, hcr, hfmt⟩
    · cases h1
    · exact ⟨j, m, nm, by omega, hcr, hfmt⟩

/-- C5, witness. -/
theorem stats_accounting_witness :
    ∃ j m pn nm, j < 2
      ∧ (fun i => if i = 1 then some "boom" else (none : Option String)) j = some m
      ∧ "Ligne 2 (A B): boom" = wErrMsg j pn nm m :=
  (stats_accounting 0 (fun i => if i = 1 then some "boom" else none) [] 0 [] [] 0 0
    [[Cell.str "PRENOMS", Cell.str "NOMS"], [Cell.str "A", Cell.str "B"]]).2.1
    "Ligne 2 (A B): boom" (by decide)

/-- The loop's scan state equals the pure scan of the rows. -/
theorem runW_scan (now : Int) (crash : Nat → Option String) :
    ∀ (rows : List (List Cell)) (st : WState) (i : Nat),
      (runW now crash st i rows).scan = wScanRun st.scan i rows := by
  intro rows
  induction rows with
  | nil => intro st i; rfl
  | cons row rest ih =>
    intro st i
    show (runW now crash (processWorkerRow now crash st i row) (i + 1) rest).scan
        = wScanRun st.scan i (row :: rest)
    rw [ih, wScanRun, processW_scan]

/-- A truthy `cin` key means the `workerData` carries that non-empty `cin`. -/
theorem cinKey_some {wd : WorkerData} {c : String} (h : cinKey wd = some c) :
    wd.cin = some c := by
  unfold cinKey at h
  cases hcin : wd.cin with
  | none => rw [hcin] at h; cases h
  | some c' =>
    rw [hcin] at h
    by_cases he : c' = ""
    · simp [he] at h
    · simp [he] at h
      exact congrArg some h

/-- Neither branch of the worker create-or-update step removes a stored
`cin`: the update never writes `cin`, the create only appends. -/
theorem workerUpsert_cin_mono (now : Int) (st : WState) (wd : WorkerData) (c : String)
    (h : hasCin st.workers c) : hasCin (workerUpsert now st wd).workers c := by
  unfold workerUpsert
  cases hl : workerLookup st.workers wd with
  | some w =>
    obtain ⟨x, hx, hcx⟩ := h
    refine ⟨if x.id = w.id then applyWorkerUpdate x wd else x, List.mem_map_of_mem _ hx, ?_⟩
    by_cases hid : x.id = w.id
    · simp [hid, applyWorkerUpdate, hcx]
    · simp [hid, hcx]
  | none =>
    obtain ⟨x, hx, hcx⟩ := h
    exact ⟨x, by simp [hx], hcx⟩

/-- A data row with a truthy `cin` leaves behind a record with that `cin`:
on a hit the matched record already had it, on a miss the created record
carries it. -/
theorem workerUpsert_cin_establish (now : Int) (st : WState) (wd : WorkerData) (c : String)
    (h : cinKey wd = some c) : hasCin (workerUpsert now st wd).workers c := by
  have hlk : workerLookup st.workers wd = st.workers.find? (fun w => w.cin == some c) := by
    unfold workerLookup
    rw [h]
  unfold workerUpsert
  rw [hlk]
  cases hl : st.workers.find? (fun w => w.cin == some c) with
  | some w =>
    have hcw : w.cin = some c := by
      have := List.find?_some hl
      simpa using this
    refine ⟨if w.id = w.id then applyWorkerUpdate w wd else w,
      List.mem_map_of_mem _ (List.mem_of_find?_eq_some hl), ?_⟩
    simp [applyWorkerUpdate, hcw]
  | none =>
    exact ⟨newWorker now st.nextId wd, by simp, by simp [newWorker, cinKey_some h]⟩

/-- One worker-loop step never removes a stored `cin`. -/
theorem processW_cin_mono (now : Int) (crash : Nat → Option String) (st : WState) (i : Nat)
    (row : List Cell) (c : String) (h : hasCin st.workers c) :
    hasCin (processWorkerRow now crash st i row).workers c := by
  cases hc : classifyW st.scan i row with
  | skip => simpa [processWorkerRow, hc] using h
  | setSite s => simpa [processWorkerRow, hc] using h
  | header cm => simpa [processWorkerRow, hc] using h
  | data wd pn nm =>
    cases hcr : crash i with
    | some m => simpa [processWorkerRow, hc, hcr] using h
    | none =>
      simp only [processWorkerRow, hc, hcr]
      exact workerUpsert_cin_mono now _ wd c h

/-- Iterated form of `processW_cin_mono`. -/
theorem runW_cin_mono (now : Int) (crash : Nat → Option String) :
    ∀ (rows : List (List Cell)) (st : WState) (i : Nat) (c : String),
      hasCin st.workers c → hasCin (runW now crash st i rows).workers c := by
  intro rows
  induction rows with
  | nil => intro st i c h; exact h
  | cons row rest ih =>
    intro st i c h
    exact ih (processWorkerRow now crash st i row) (i + 1) c
      (processW_cin_mono now crash st i row c h)

/-- After a crash-free run, every `cin` carried by a data row of the grid is
present in the store. -/
theorem runW_cin_coverage (now : Int) :
    ∀ (rows : List (List Cell)) (st : WState) (i : Nat) (wd : WorkerData) (c : String),
      wd ∈ wDataRows st.scan i rows → cinKey wd = some c →
      hasCin (runW now noCrash st i rows).workers c := by
  intro rows
  induction rows with
  | nil => intro st i wd c h _; simp [wDataRows] at h
  | cons row rest ih =>
    intro st i wd c hmem hkey
    rw [wDataRows] at hmem
    rcases List.mem_append.mp hmem with h1 | h2
    · cases hc : classifyW st.scan i row with
      | skip => rw [hc] at h1; simp at h1
      | setSite s => rw [hc] at h1; simp at h1
      | header cm => rw [hc] at h1; simp at h1
      | data wd' pn nm =>
        rw [hc] at h1
        simp at h1
        subst h1
        have hstep : hasCin (processWorkerRow now noCrash st i row).workers c := by
          simp only [processWorkerRow, hc, noCrash]
          exact workerUpsert_cin_establish now _ wd c hkey
        exact runW_cin_mono now noCrash rest _ (i + 1) c hstep
    · have hmem' : wd ∈ wDataRows (processWorkerRow now noCrash st i row).scan (i + 1) rest := by
        rw [processW_scan]; exact h2
      exact ih (processWorkerRow now noCrash st i row) (i + 1) wd c hmem' hkey

/-- Second-run lemma for workers: when every data row's `cin` is already in
the store, the run only updates — nothing is created and each data row
adds one to `updated` and to `total`. -/
theorem runW_idem (now : Int) :
    ∀ (rows : List (List Cell)) (st : WState) (i : Nat),
      (∀ wd ∈ wDataRows st.scan i rows, ∃ c, cinKey wd = some c ∧ hasCin st.workers c) →
      (runW now noCrash st i rows).stats.created = st.stats.created
        ∧ (runW now noCrash st i rows).stats.updated
            = st.stats.updated + (wDataRows st.scan i rows).length
        ∧ (runW now noCrash st i rows).stats.total
            = st.stats.total + (wDataRows st.scan i rows).length := by
  intro rows
  induction rows with
  | nil => intro st i _; simp [runW, wDataRows]
  | cons row rest ih =>
    intro st i hall
    have htail : ∀ wd ∈ wDataRows (processWorkerRow now noCrash st i row).scan (i + 1) rest,
        ∃ c, cinKey wd = some c ∧ hasCin (processWorkerRow now noCrash st i row).workers c := by
      intro wd hw
      rw [processW_scan] at hw
      obtain ⟨c, hkey, hhas⟩ := hall wd (by rw [wDataRows]; exact List.mem_append.mpr (Or.inr hw))
      exact ⟨c, hkey, processW_cin_mono now noCrash st i row c hhas⟩
    have hrest := ih (processWorkerRow now noCrash st i row) (i + 1) htail
    have hrun : runW now noCrash st i (row :: rest)
        = runW now noCrash (processWorkerRow now noCrash st i row) (i + 1) rest := rfl
    have hscan : (processWorkerRow now noCrash st i row).scan = wScanNext st.scan i row :=
      processW_scan now noCrash st i row
    rw [hrun]
    rw [hscan] at hrest
    cases hc : classifyW st.scan i row with
    | skip =>
      have hstep : processWorkerRow now noCrash st i row = st := by simp [processWorkerRow, hc]
      rw [hstep] at hrest
      have hlist : wDataRows st.scan i (row :: rest)
          = wDataRows (wScanNext st.scan i row) (i + 1) rest := by
        rw [wDataRows, hc]; simp
      rw [hstep, hlist]
      exact hrest
    | setSite s =>
      have hstats : (processWorkerRow now noCrash st i row).stats = st.stats := by
        simp [processWorkerRow, hc]
      rw [hstats] at hrest
      have hlist : wDataRows st.scan i (row :: rest)
          = wDataRows (wScanNext st.scan i row) (i + 1) rest := by
        rw [wDataRows, hc]; simp
      rw [hlist]
      exact hrest
    | header cm =>
      have hstats : (processWorkerRow now noCrash st i row).stats = st.stats := by
        simp [processWorkerRow, hc]
      rw [hstats] at hrest
      have hlist : wDataRows st.scan i (row :: rest)
          = wDataRows (wScanNext st.scan i row) (i + 1) rest := by
        rw [wDataRows, hc]; simp
      rw [hlist]
      exact hrest
    | data wd pn nm =>
      obtain ⟨c, hkey, hhas⟩ := hall wd (by rw [wDataRows, hc]; simp)
      have hfound : ∃ w, workerLookup st.workers wd = some w := by
        unfold workerLookup
        rw [hkey]
        obtain ⟨x, hx, hcx⟩ := hhas
        have hsome : (st.workers.find? (fun w => w.cin == some c)).isSome :=
          List.find?_isSome.mpr ⟨x, hx, by simp [hcx]⟩
        obtain ⟨w, hw⟩ := Option.isSome_iff_exists.mp hsome
        exact ⟨w, hw⟩
      obtain ⟨w, hw⟩ := hfound
      have hstep : (processWorkerRow now noCrash st i row).stats.created = st.stats.created
          ∧ (processWorkerRow now noCrash st i row).stats.updated = st.stats.updated + 1
          ∧ (processWorkerRow now noCrash st i row).stats.total = st.stats.total + 1 := by
        simp [processWorkerRow, hc, noCrash, workerUpsert, hw]
      have hlist : wDataRows st.scan i (row :: rest)
          = wd :: wDataRows (wScanNext st.scan i row) (i + 1) rest := by
        rw [wDataRows, hc]; simp
      rw [hlist]
      refine ⟨by rw [hrest.1, hstep.1], ?_, ?_⟩
      · rw [hrest.2.1, hstep.2.1]
        simp
        omega
      · rw [hrest.2.2, hstep.2.2]
        simp
        omega

/-- Product version of `runW_scan`. -/
theorem runP_scan (crash : Nat → Option String) :
    ∀ (rows : List (List Cell)) (st : PState) (i : Nat),
      (runP crash st i rows).scan = pScanRun st.scan i rows := by
  intro rows
  induction rows with
  | nil => intro st i; rfl
  | cons row rest ih =>
    intro st i
    show (runP crash (processProductRow crash st i row) (i + 1) rest).scan
        = pScanRun st.scan i (row :: rest)
    rw [ih, pScanRun, processP_scan]

/-- A truthy code key means the `productData` carries that non-empty code. -/
theorem codeKey_some {pd : ProductData} {c : String} (h : codeKey pd = some c) :
    pd.code_produit = some c := by
  unfold codeKey at h
  cases hcode : pd.code_produit with
  | none => rw [hcode] at h; cases h
  | some c' =>
    rw [hcode] at h
    by_cases he : c' = ""
    · simp [he] at h
    · simp [he] at h
      exact congrArg some h

/-- What the product lookup guarantees about the record it returns: it
matches the row's code, or (only after a code miss or absent code) the
row's name. -/
theorem productLookup_found (ps : List ProductRec) (pd : ProductData) (p : ProductRec)
    (h : productLookup ps pd = some p) :
    (∃ c, codeKey pd = some c ∧ p.code_produit = some c) ∨ p.nom = pd.nom := by
  unfold productLookup at h
  cases hk : codeKey pd with
  | some c =>
    rw [hk] at h
    simp only [] at h
    cases hf : ps.find? (fun x => x.code_produit == some c) with
    | some x =>
      simp only [hf, Option.some.injEq] at h
      have := List.find?_some hf
      exact Or.inl ⟨c, rfl, by rw [← h]; simpa using this⟩
    | none =>
      simp only [hf] at h
      have := List.find?_some h
      exact Or.inr (by simpa using this)
  | none =>
    rw [hk] at h
    simp only [] at h
    have := List.find?_some h
    exact Or.inr (by simpa using this)

/-- When the store holds a record with the row's code, the lookup hits (and
returns a record carrying that code). -/
theorem productLookup_code_hit (ps : List ProductRec) (pd : ProductData) (c : String)
    (hk : codeKey pd = some c) (hrec : ∃ rec ∈ ps, rec.code_produit = some c) :
    ∃ p, productLookup ps pd = some p ∧ p.code_produit = some c := by
  obtain ⟨rec, hmem, hcode⟩ := hrec
  have hsome : (ps.find? (fun x => x.code_produit == some c)).isSome :=
    List.find?_isSome.mpr ⟨rec, hmem, by simp [hcode]⟩
  obtain ⟨p, hp⟩ := Option.isSome_iff_exists.mp hsome
  refine ⟨p, ?_, by simpa using List.find?_some hp⟩
  unfold productLookup
  rw [hk]
  simp only [hp]

/-- In a well-formed store, two stored records with the same id are the
same record. -/
theorem pWF_id_inj {st : PState} (hwf : pWF st) {x y : ProductRec}
    (hx : x ∈ st.products) (hy : y ∈ st.products) (hid : x.id = y.id) : x = y :=
  List.inj_on_of_nodup_map hwf.1 hx hy hid

/-- The create-or-update step keeps the store well formed. -/
theorem productUpsert_wf (st : PState) (pd : ProductData) (hwf : pWF st) :
    pWF (productUpsert st pd) := by
  unfold productUpsert
  cases hl : productLookup st.products pd with
  | some p =>
    constructor
    · have : (st.products.map (fun x => if x.id = p.id then applyProductUpdate x pd else x)).map
          (fun q => q.id) = st.products.map (fun q => q.id) := by
        rw [List.map_map]
        refine List.map_congr_left ?_
        intro x _
        by_cases hid : x.id = p.id
        · simp [hid, applyProductUpdate]
        · simp [hid]
      simpa [this] using hwf.1
    · intro q hq
      obtain ⟨x, hx, hfx⟩ := List.mem_map.mp hq
      have : q.id = x.id := by
        by_cases hid : x.id = p.id
        · rw [← hfx]; simp [hid, applyProductUpdate]
        · rw [← hfx]; simp [hid]
      rw [this]
      exact hwf.2 x hx
  | none =>
    constructor
    · have hnot : st.nextId ∉ st.products.map (fun q => q.id) := by
        intro hmem
        obtain ⟨x, hx, hfx⟩ := List.mem_map.mp hmem
        exact absurd hfx (Nat.ne_of_lt (hwf.2 x hx))
      simp only [List.map_append, List.map_cons, List.map_nil]
      rw [List.nodup_append]
      exact ⟨hwf.1, List.nodup_singleton _, by simpa [newProduct] using hnot⟩
    · intro q hq
      rcases List.mem_append.mp hq with hq | hq
      · exact Nat.lt_succ_of_lt (hwf.2 q hq)
      · simp at hq
        rw [hq]
        exact Nat.lt_succ_self _

/-- The create-or-update step leaves behind a record with the row's name
and code. -/
theorem productUpsert_key_establish (st : PState) (pd : ProductData) (c : String)
    (hk : codeKey pd = some c) :
    hasKeyRec (productUpsert st pd).products pd.nom c := by
  unfold productUpsert
  cases hl : productLookup st.products pd with
  | some p =>
    refine ⟨if p.id = p.id then applyProductUpdate p pd else p,
      List.mem_map_of_mem _ (productLookup_mem st.products pd p hl), ?_⟩
    simp [applyProductUpdate, codeKey_some hk]
  | none =>
    exact ⟨newProduct st.nextId pd, by simp, by simp [newProduct, codeKey_some hk]⟩

/-- Name-and-code pairs that collide with the processed row in neither
component survive the create-or-update step. -/
theorem productUpsert_key_preserve (st : PState) (pd : ProductData) (n c : String)
    (hwf : pWF st) (hkey : hasKeyRec st.products n c)
    (hn : n ≠ pd.nom) (hc : ∀ c₀, codeKey pd = some c₀ → c ≠ c₀) :
    hasKeyRec (productUpsert st pd).products n c := by
  obtain ⟨w, hw, hwn, hwc⟩ := hkey
  unfold productUpsert
  cases hl : productLookup st.products pd with
  | some p =>
    have hne : w.id ≠ p.id := by
      intro hid
      have hwp : w = p := pWF_id_inj hwf hw (productLookup_mem st.products pd p hl) hid
      rcases productLookup_found st.products pd p hl with ⟨c₀, hk₀, hpc⟩ | hpn
      · rw [hwp, hpc] at hwc
        exact hc c₀ hk₀ (Option.some.inj hwc.symm)
      · exact hn (by rw [← hwn, hwp, hpn])
    exact ⟨w, by
      have : (if w.id = p.id then applyProductUpdate w pd else w) = w := if_neg hne
      exact this ▸ List.mem_map_of_mem _ hw, hwn, hwc⟩
  | none =>
    exact ⟨w, by simp [hw], hwn, hwc⟩

/-- Variant of `productUpsert_key_preserve` for a guaranteed code hit: when
the lookup finds a record by code, any stored pair with a different code
survives (even one sharing the name). -/
theorem productUpsert_key_preserve_codeHit (st : PState) (pd : ProductData) (n c c₀ : String)
    (hwf : pWF st) (hkey : hasKeyRec st.products n c)
    (hk : codeKey pd = some c₀)
    (hhit : ∃ rec ∈ st.products, rec.code_produit = some c₀)
    (hcne : c ≠ c₀) :
    hasKeyRec (productUpsert st pd).products n c := by
  obtain ⟨w, hw, hwn, hwc⟩ := hkey
  obtain ⟨p, hp, hpc⟩ := productLookup_code_hit st.products pd c₀ hk hhit
  unfold productUpsert
  rw [hp]
  have hne : w.id ≠ p.id := by
    intro hid
    have hwp : w = p := pWF_id_inj hwf hw (productLookup_mem st.products pd p hp) hid
    rw [hwp, hpc] at hwc
    exact hcne (Option.some.inj hwc.symm)
  exact ⟨w, by
    have : (if w.id = p.id then applyProductUpdate w pd else w) = w := if_neg hne
    exact this ▸ List.mem_map_of_mem _ hw, hwn, hwc⟩

/-- Category resolution does not touch the name or the code of the
assembled `productData`. -/
theorem resolveCategory_keys (st : PState) (pd : ProductData) (c : Option String) :
    (resolveCategory st pd c).1.nom = pd.nom
      ∧ (resolveCategory st pd c).1.code_produit = pd.code_produit := by
  unfold resolveCategory
  cases c with
  | none => exact ⟨rfl, rfl⟩
  | some raw =>
    cases hf : st.categories.find? (fun x => x.nom == jsTrim raw) with
    | some cat => simp [hf]
    | none => simp [hf]

/-- The code key only depends on the code field. -/
theorem codeKey_congr {pd₁ pd₂ : ProductData} (h : pd₁.code_produit = pd₂.code_produit) :
    codeKey pd₁ = codeKey pd₂ := by
  unfold codeKey
  rw [h]

/-- Well-formedness only looks at the products and the next id. -/
theorem pWF_of_eq {st st' : PState} (h1 : st'.products = st.products)
    (h2 : st'.nextId = st.nextId) (hwf : pWF st) : pWF st' := by
  unfold pWF
  rw [h1, h2]
  exact hwf

/-- On a data row the crash-free product step is category resolution
followed by the create-or-update step. -/
theorem processP_data_eq (st : PState) (i : Nat) (row : List Cell) (pd : ProductData)
    (catRaw : Option String) (rawNom : String)
    (hc : classifyP st.scan i row = PAction.data pd catRaw rawNom) :
    processProductRow noCrash st i row
      = productUpsert
          ((resolveCategory { st with stats := { st.stats with total := st.stats.total + 1 } } pd catRaw).2)
          ((resolveCategory { st with stats := { st.stats with total := st.stats.total + 1 } } pd catRaw).1) := by
  simp [processProductRow, hc, noCrash]

/-- One product-loop step keeps the store well formed. -/
theorem processP_wf (crash : Nat → Option String) (st : PState) (i : Nat) (row : List Cell)
    (hwf : pWF st) : pWF (processProductRow crash st i row) := by
  cases hc : classifyP st.scan i row with
  | skip =>
    have : processProductRow crash st i row = st := by simp [processProductRow, hc]
    rw [this]; exact hwf
  | header cm =>
    refine pWF_of_eq ?_ ?_ hwf <;> simp [processProductRow, hc]
  | data pd catRaw rawNom =>
    have hfr := resolveCategory_frame
      { st with stats := { st.stats with total := st.stats.total + 1 } } pd catRaw
    cases hcr : crash i with
    | some m =>
      refine pWF_of_eq ?_ ?_ hwf
      · simp only [processProductRow, hc, hcr]
        simpa using hfr.2.1
      · simp only [processProductRow, hc, hcr]
        simpa using hfr.2.2.2
    | none =>
      have hstep : processProductRow crash st i row
          = productUpsert
              ((resolveCategory { st with stats := { st.stats with total := st.stats.total + 1 } } pd catRaw).2)
              ((resolveCategory { st with stats := { st.stats with total := st.stats.total + 1 } } pd catRaw).1) := by
        simp [processProductRow, hc, hcr]
      rw [hstep]
      exact productUpsert_wf _ _ (pWF_of_eq hfr.2.1 hfr.2.2.2 hwf)

/-- Iterated form of `processP_wf`. -/
theorem runP_wf (crash : Nat → Option String) :
    ∀ (rows : List (List Cell)) (st : PState) (i : Nat),
      pWF st → pWF (runP crash st i rows) := by
  intro rows
  induction rows with
  | nil => intro st i h; exact h
  | cons row rest ih =>
    intro st i h
    exact ih (processProductRow crash st i row) (i + 1) (processP_wf crash st i row h)

/-- One crash-free product step establishes the processed row's
name-and-code pair in the store. -/
theorem processP_key_establish (st : PState) (i : Nat) (row : List Cell) (pd : ProductData)
    (catRaw : Option String) (rawNom : String) (c : String)
    (hc : classifyP st.scan i row = PAction.data pd catRaw rawNom)
    (hk : codeKey pd = some c) :
    hasKeyRec (processProductRow noCrash st i row).products pd.nom c := by
  rw [processP_data_eq st i row pd catRaw rawNom hc]
  have hkeys := resolveCategory_keys
    { st with stats := { st.stats with total := st.stats.total + 1 } } pd catRaw
  have := productUpsert_key_establish
    ((resolveCategory { st with stats := { st.stats with total := st.stats.total + 1 } } pd catRaw).2)
    ((resolveCategory { st with stats := { st.stats with total := st.stats.total + 1 } } pd catRaw).1)
    c (by rw [codeKey_congr hkeys.2]; exact hk)
  rwa [hkeys.1] at this

/-- One product step never disturbs a stored name-and-code pair that
collides with the processed row in neither component. -/
theorem processP_key_preserve (crash : Nat → Option String) (st : PState) (i : Nat)
    (row : List Cell) (n c : String) (hwf : pWF st) (hkey : hasKeyRec st.products n c)
    (hsafe : ∀ pd catRaw rawNom, classifyP st.scan i row = PAction.data pd catRaw rawNom →
      n ≠ pd.nom ∧ ∀ c₀, codeKey pd = some c₀ → c ≠ c₀) :
    hasKeyRec (processProductRow crash st i row).products n c := by
  cases hc : classifyP st.scan i row with
  | skip =>
    have : processProductRow crash st i row = st := by simp [processProductRow, hc]
    rw [this]; exact hkey
  | header cm =>
    have : (processProductRow crash st i row).products = st.products := by
      simp [processProductRow, hc]
    rw [hasKeyRec, this]; exact hkey
  | data pd catRaw rawNom =>
    obtain ⟨hn, hcodes⟩ := hsafe pd catRaw rawNom hc
    have hfr := resolveCategory_frame
      { st with stats := { st.stats with total := st.stats.total + 1 } } pd catRaw
    have hkeys := resolveCategory_keys
      { st with stats := { st.stats with total := st.stats.total + 1 } } pd catRaw
    cases hcr : crash i with
    | some m =>
      have : (processProductRow crash st i row).products = st.products := by
        simp only [processProductRow, hc, hcr]
        simpa using hfr.2.1
      rw [hasKeyRec, this]; exact hkey
    | none =>
      have hstep : processProductRow crash st i row
          = productUpsert
              ((resolveCategory { st with stats := { st.stats with total := st.stats.total + 1 } } pd catRaw).2)
              ((resolveCategory { st with stats := { st.stats with total := st.stats.total + 1 } } pd catRaw).1) := by
        simp [processProductRow, hc, hcr]
      rw [hstep]
      refine productUpsert_key_preserve _ _ n c (pWF_of_eq hfr.2.1 hfr.2.2.2 hwf) ?_ ?_ ?_
      · rw [hasKeyRec, hfr.2.1]; exact hkey
      · rw [hkeys.1]; exact hn
      · intro c₀ hk₀
        exact hcodes c₀ (by rw [← codeKey_congr hkeys.2]; exact hk₀)

/-- Code-hit version of `processP_key_preserve`: when the store already
holds the processed row's code, pairs with a different code survive the
step even if they share the name. -/
theorem processP_key_preserve_codeHit (st : PState) (i : Nat) (row : List Cell)
    (n c : String) (pd₀ : ProductData) (catRaw : Option String) (rawNom : String) (c₀ : String)
    (hwf : pWF st) (hkey : hasKeyRec st.products n c)
    (hc : classifyP st.scan i row = PAction.data pd₀ catRaw rawNom)
    (hk : codeKey pd₀ = some c₀)
    (hhit : ∃ rec ∈ st.products, rec.code_produit = some c₀)
    (hcne : c ≠ c₀) :
    hasKeyRec (processProductRow noCrash st i row).products n c := by
  rw [processP_data_eq st i row pd₀ catRaw rawNom hc]
  have hfr := resolveCategory_frame
    { st with stats := { st.stats with total := st.stats.total + 1 } } pd₀ catRaw
  have hkeys := resolveCategory_keys
    { st with stats := { st.stats with total := st.stats.total + 1 } } pd₀ catRaw
  refine productUpsert_key_preserve_codeHit _ _ n c c₀
    (pWF_of_eq hfr.2.1 hfr.2.2.2 hwf) ?_ ?_ ?_ hcne
  · rw [hasKeyRec, hfr.2.1]; exact hkey
  · rw [codeKey_congr hkeys.2]; exact hk
  · rw [hfr.2.1]; exact hhit

/-- First-run lemma for products: after a crash-free run over data rows
with pairwise-distinct names and codes, every row's name-and-code pair is
present in the store (along with any previously established pairs that
collide with no processed row). -/
theorem runP_key_coverage :
    ∀ (rows : List (List Cell)) (st : PState) (i : Nat) (K : List (String × String)),
      pWF st →
      (∀ pd ∈ pDataRows st.scan i rows, ∃ c, codeKey pd = some c) →
      ((pDataRows st.scan i rows).map (fun pd => pd.nom)).Nodup →
      ((pDataRows st.scan i rows).map (fun pd => (codeKey pd).getD "")).Nodup →
      (∀ k ∈ K, hasKeyRec st.products k.1 k.2) →
      (∀ k ∈ K, k.1 ∉ (pDataRows st.scan i rows).map (fun pd => pd.nom)
        ∧ k.2 ∉ (pDataRows st.scan i rows).map (fun pd => (codeKey pd).getD "")) →
      ∀ k ∈ K ++ (pDataRows st.scan i rows).map (fun pd => (pd.nom, (codeKey pd).getD "")),
        hasKeyRec (runP noCrash st i rows).products k.1 k.2 := by
  intro rows
  induction rows with
  | nil =>
    intro st i K _ _ _ _ hK _ k hk
    simp [pDataRows] at hk
    exact hK k hk
  | cons row rest ih =>
    intro st i K hwf hcode hnomN hcodeN hK hKav
    have hrun : runP noCrash st i (row :: rest)
        = runP noCrash (processProductRow noCrash st i row) (i + 1) rest := rfl
    have hscan : (processProductRow noCrash st i row).scan = pScanNext st.scan i row :=
      processP_scan noCrash st i row
    rw [hrun]
    cases hc : classifyP st.scan i row with
    | skip =>
      have hstep : processProductRow noCrash st i row = st := by simp [processProductRow, hc]
      have hlist : pDataRows st.scan i (row :: rest)
          = pDataRows (pScanNext st.scan i row) (i + 1) rest := by
        rw [pDataRows, hc]; simp
      rw [hlist] at hcode hnomN hcodeN hKav ⊢
      intro k hk
      refine ih (processProductRow noCrash st i row) (i + 1) K ?_ ?_ ?_ ?_ ?_ ?_ k ?_
      · rw [hstep]; exact hwf
      · rw [hscan]; exact hcode
      · rw [hscan]; exact hnomN
      · rw [hscan]; exact hcodeN
      · rw [hstep]; exact hK
      · rw [hscan]; exact hKav
      · rw [hscan]; exact hk
    | header cm =>
      have hprod : (processProductRow noCrash st i row).products = st.products := by
        simp [processProductRow, hc]
      have hlist : pDataRows st.scan i (row :: rest)
          = pDataRows (pScanNext st.scan i row) (i + 1) rest := by
        rw [pDataRows, hc]; simp
      rw [hlist] at hcode hnomN hcodeN hKav ⊢
      intro k hk
      refine ih (processProductRow noCrash st i row) (i + 1) K
        (processP_wf noCrash st i row hwf) ?_ ?_ ?_ ?_ ?_ k ?_
      · rw [hscan]; exact hcode
      · rw [hscan]; exact hnomN
      · rw [hscan]; exact hcodeN
      · intro k' hk'
        rw [hasKeyRec, hprod]
        exact hK k' hk'
      · rw [hscan]; exact hKav
      · rw [hscan]; exact hk
    | data pd₀ catRaw rawNom =>
      have hlist : pDataRows st.scan i (row :: rest)
          = pd₀ :: pDataRows (pScanNext st.scan i row) (i + 1) rest := by
        rw [pDataRows, hc]; simp
      obtain ⟨c₀, hk₀⟩ := hcode pd₀ (by rw [hlist]; simp)
      have hgetD : (codeKey pd₀).getD "" = c₀ := by rw [hk₀]; rfl
      rw [hlist] at hcode hnomN hcodeN hKav
      simp only [List.map_cons, hgetD] at hnomN hcodeN hKav
      have hestab : hasKeyRec (processProductRow noCrash st i row).products pd₀.nom c₀ :=
        processP_key_establish st i row pd₀ catRaw rawNom c₀ hc hk₀
      have hKpres : ∀ k ∈ K, hasKeyRec (processProductRow noCrash st i row).products k.1 k.2 := by
        intro k hk
        refine processP_key_preserve noCrash st i row k.1 k.2 hwf (hK k hk) ?_
        intro pd' catRaw' rawNom' hc'
        rw [hc] at hc'
        injection hc' with h1 h2 h3
        subst h1
        constructor
        · intro heq
          exact (hKav k hk).1 (by rw [heq]; simp)
        · intro c' hkc'
          rw [hk₀] at hkc'
          injection hkc' with hcc
          subst hcc
          intro heq
          exact (hKav k hk).2 (by rw [heq]; simp)
      have hres := ih (processProductRow noCrash st i row) (i + 1) (K ++ [(pd₀.nom, c₀)])
        (processP_wf noCrash st i row hwf)
        (by rw [hscan]; intro pd hpd; exact hcode pd (by simp [hpd]))
        (by rw [hscan]; exact hnomN.of_cons)
        (by rw [hscan]; exact hcodeN.of_cons)
        (by
          intro k hk
          rcases List.mem_append.mp hk with hk | hk
          · exact hKpres k hk
          · simp at hk
            rw [hk]
            exact hestab)
        (by
          rw [hscan]
          intro k hk
          rcases List.mem_append.mp hk with hk | hk
          · exact ⟨fun hm => (hKav k hk).1 (by simp [hm]), fun hm => (hKav k hk).2 (by simp [hm])⟩
          · simp at hk
            rw [hk]
            exact ⟨by simpa using hnomN.not_mem, by simpa using hcodeN.not_mem⟩)
      intro k hk
      refine hres k ?_
      rw [hscan]
      rw [hlist] at hk
      simp only [List.map_cons, hgetD] at hk
      rcases List.mem_append.mp hk with hk | hk
      · exact List.mem_append.mpr (Or.inl (List.mem_append.mpr (Or.inl hk)))
      · rcases List.mem_cons.mp hk with hk | hk
        · exact List.mem_append.mpr (Or.inl (List.mem_append.mpr (Or.inr (by simp [hk]))))
        · exact List.mem_append.mpr (Or.inr hk)

/-- Second-run lemma for products: when every data row's name-and-code pair
is already in the store and the rows' codes are pairwise distinct, the run
only updates. -/
theorem runP_idem :
    ∀ (rows : List (List Cell)) (st : PState) (i : Nat),
      pWF st →
      (∀ pd ∈ pDataRows st.scan i rows, ∃ c, codeKey pd = some c ∧ hasKeyRec st.products pd.nom c) →
      ((pDataRows st.scan i rows).map (fun pd => (codeKey pd).getD "")).Nodup →
      (runP noCrash st i rows).stats.created = st.stats.created
        ∧ (runP noCrash st i rows).stats.updated
            = st.stats.updated + (pDataRows st.scan i rows).length
        ∧ (runP noCrash st i rows).stats.total
            = st.stats.total + (pDataRows st.scan i rows).length := by
  intro rows
  induction rows with
  | nil => intro st i _ _ _; simp [runP, pDataRows]
  | cons row rest ih =>
    intro st i hwf hall hcodeN
    have hrun : runP noCrash st i (row :: rest)
        = runP noCrash (processProductRow noCrash st i row) (i + 1) rest := rfl
    have hscan : (processProductRow noCrash st i row).scan = pScanNext st.scan i row :=
      processP_scan noCrash st i row
    rw [hrun]
    cases hc : classifyP st.scan i row with
    | skip =>
      have hstep : processProductRow noCrash st i row = st := by simp [processProductRow, hc]
      have hlist : pDataRows st.scan i (row :: rest)
          = pDataRows (pScanNext st.scan i row) (i + 1) rest := by
        rw [pDataRows, hc]; simp
      rw [hlist] at hall hcodeN ⊢
      have hres := ih (processProductRow noCrash st i row) (i + 1)
        (by rw [hstep]; exact hwf)
        (by rw [hscan, hstep]; exact hall)
        (by rw [hscan]; exact hcodeN)
      have hstats : (processProductRow noCrash st i row).stats = st.stats := by rw [hstep]
      rw [hscan, hstats] at hres
      exact hres
    | header cm =>
      have hprod : (processProductRow noCrash st i row).products = st.products := by
        simp [processProductRow, hc]
      have hstats : (processProductRow noCrash st i row).stats = st.stats := by
        simp [processProductRow, hc]
      have hlist : pDataRows st.scan i (row :: rest)
          = pDataRows (pScanNext st.scan i row) (i + 1) rest := by
        rw [pDataRows, hc]; simp
      rw [hlist] at hall hcodeN ⊢
      have hres := ih (processProductRow noCrash st i row) (i + 1)
        (processP_wf noCrash st i row hwf)
        (by
          rw [hscan]
          intro pd hpd
          obtain ⟨c, hk, hkey⟩ := hall pd hpd
          exact ⟨c, hk, by rw [hasKeyRec, hprod]; exact hkey⟩)
        (by rw [hscan]; exact hcodeN)
      rw [hscan, hstats] at hres
      exact hres
    | data pd₀ catRaw rawNom =>
      have hlist : pDataRows st.scan i (row :: rest)
          = pd₀ :: pDataRows (pScanNext st.scan i row) (i + 1) rest := by
        rw [pDataRows, hc]; simp
      obtain ⟨c₀, hk₀, hkey₀⟩ := hall pd₀ (by rw [hlist]; simp)
      have hgetD : (codeKey pd₀).getD "" = c₀ := by rw [hk₀]; rfl
      rw [hlist] at hall hcodeN
      simp only [List.map_cons, hgetD] at hcodeN
      have hhit : ∃ rec ∈ st.products, rec.code_produit = some c₀ := by
        obtain ⟨w, hw, _, hwc⟩ := hkey₀
        exact ⟨w, hw, hwc⟩
      -- the step hits by code and counts one update
      have hfr := resolveCategory_frame
        { st with stats := { st.stats with total := st.stats.total + 1 } } pd₀ catRaw
      have hkeys := resolveCategory_keys
        { st with stats := { st.stats with total := st.stats.total + 1 } } pd₀ catRaw
      obtain ⟨p, hp, hpc⟩ := productLookup_code_hit st.products
        ((resolveCategory { st with stats := { st.stats with total := st.stats.total + 1 } } pd₀ catRaw).1)
        c₀ (by rw [codeKey_congr hkeys.2]; exact hk₀) hhit
      have hlookup : productLookup
          ((resolveCategory { st with stats := { st.stats with total := st.stats.total + 1 } } pd₀ catRaw).2).products
          ((resolveCategory { st with stats := { st.stats with total := st.stats.total + 1 } } pd₀ catRaw).1)
          = some p := by
        rw [hfr.2.1]; exact hp
      have hstep : (processProductRow noCrash st i row).stats.created = st.stats.created
          ∧ (processProductRow noCrash st i row).stats.updated = st.stats.updated + 1
          ∧ (processProductRow noCrash st i row).stats.total = st.stats.total + 1 := by
        rw [processP_data_eq st i row pd₀ catRaw rawNom hc]
        unfold productUpsert
        rw [hlookup]
        have hst : ((resolveCategory { st with stats := { st.stats with total := st.stats.total + 1 } } pd₀ catRaw).2).stats
            = { st.stats with total := st.stats.total + 1 } := hfr.2.2.1
        simp [hst]
      have htail : ∀ pd ∈ pDataRows (processProductRow noCrash st i row).scan (i + 1) rest,
          ∃ c, codeKey pd = some c ∧ hasKeyRec (processProductRow noCrash st i row).products pd.nom c := by
        rw [hscan]
        intro pd hpd
        obtain ⟨c, hk, hkey⟩ := hall pd (by simp [hpd])
        have hcne : c ≠ c₀ := by
          intro he
          have hmem : c ∈ (pDataRows (pScanNext st.scan i row) (i + 1) rest).map
              (fun pd => (codeKey pd).getD "") :=
            List.mem_map.mpr ⟨pd, hpd, by rw [hk]; rfl⟩
          rw [he] at hmem
          exact hcodeN.not_mem hmem
        exact ⟨c, hk, processP_key_preserve_codeHit st i row pd.nom c pd₀ catRaw rawNom c₀
          hwf hkey hc hk₀ hhit hcne⟩
      have hres := ih (processProductRow noCrash st i row) (i + 1)
        (processP_wf noCrash st i row hwf) htail
        (by rw [hscan]; exact hcodeN.of_cons)
      rw [hscan] at hres
      rw [hlist]
      refine ⟨by rw [hres.1, hstep.1], ?_, ?_⟩
      · rw [hres.2.1, hstep.2.1]
        simp
        omega
      · rw [hres.2.2, hstep.2.2]
        simp
        omega

/-- C2, amended.  Re-importing the same grid against the store left by a
crash-free first run yields `created = 0` and `updated = total`:
unconditionally for workers when every data row carries a truthy national
ID (the `cin` lookup key is never rewritten by an update), and for
products — whose update does rewrite the code and name of the matched
record — under the additional assumption that no two data rows share a
name or a code, against a well-formed store (distinct record ids below the
next id).  Without that assumption the product half fails: see the
counterexample, where a later row re-keys the record created by an
earlier one. -/
theorem reimport_idempotent :
    (∀ (now₁ now₂ : Int) (grid : List (List Cell)) (w0 : List WorkerRec) (n0 : Nat),
      (∀ wd ∈ wDataRows initWScan 0 grid, (cinKey wd).isSome) →
      (importWorkersFromExcel now₂ noCrash
          (importWorkersFromExcel now₁ noCrash w0 n0 grid).workers
          (importWorkersFromExcel now₁ noCrash w0 n0 grid).nextId grid).stats.created = 0
        ∧ (importWorkersFromExcel now₂ noCrash
            (importWorkersFromExcel now₁ noCrash w0 n0 grid).workers
            (importWorkersFromExcel now₁ noCrash w0 n0 grid).nextId grid).stats.updated
          = (importWorkersFromExcel now₂ noCrash
              (importWorkersFromExcel now₁ noCrash w0 n0 grid).workers
              (importWorkersFromExcel now₁ noCrash w0 n0 grid).nextId grid).stats.total)
      ∧ (∀ (grid : List (List Cell)) (p0 : List ProductRec) (c0 : List CategoryRec) (ni nc : Nat),
          (∀ pd ∈ pDataRows initPScan 0 grid, (codeKey pd).isSome) →
          ((pDataRows initPScan 0 grid).map (fun pd => pd.nom)).Nodup →
          ((pDataRows initPScan 0 grid).map (fun pd => (codeKey pd).getD "")).Nodup →
          (p0.map (fun p => p.id)).Nodup →
          (∀ p ∈ p0, p.id < ni) →
          (importProductsFromExcel noCrash
              (importProductsFromExcel noCrash p0 c0 ni nc grid).products
              (importProductsFromExcel noCrash p0 c0 ni nc grid).categories
              (importProductsFromExcel noCrash p0 c0 ni nc grid).nextId
              (importProductsFromExcel noCrash p0 c0 ni nc grid).nextCatId grid).stats.created = 0
            ∧ (importProductsFromExcel noCrash
                (importProductsFromExcel noCrash p0 c0 ni nc grid).products
                (importProductsFromExcel noCrash p0 c0 ni nc grid).categories
                (importProductsFromExcel noCrash p0 c0 ni nc grid).nextId
                (importProductsFromExcel noCrash p0 c0 ni nc grid).nextCatId grid).stats.updated
              = (importProductsFromExcel noCrash
                  (importProductsFromExcel noCrash p0 c0 ni nc grid).products
                  (importProductsFromExcel noCrash p0 c0 ni nc grid).categories
                  (importProductsFromExcel noCrash p0 c0 ni nc grid).nextId
                  (importProductsFromExcel noCrash p0 c0 ni nc grid).nextCatId grid).stats.total) := by
  constructor
  · intro now₁ now₂ grid w0 n0 hall
    have hcover : ∀ wd ∈ wDataRows initWScan 0 grid, ∃ c, cinKey wd = some c
        ∧ hasCin (importWorkersFromExcel now₁ noCrash w0 n0 grid).workers c := by
      intro wd hwd
      obtain ⟨c, hc⟩ := Option.isSome_iff_exists.mp (hall wd hwd)
      exact ⟨c, hc, runW_cin_coverage now₁ grid ⟨initWScan, zeroStats, w0, n0⟩ 0 wd c hwd hc⟩
    have hres := runW_idem now₂ grid
      ⟨initWScan, zeroStats,
        (importWorkersFromExcel now₁ noCrash w0 n0 grid).workers,
        (importWorkersFromExcel now₁ noCrash w0 n0 grid).nextId⟩ 0 hcover
    have heq : importWorkersFromExcel now₂ noCrash
        (importWorkersFromExcel now₁ noCrash w0 n0 grid).workers
        (importWorkersFromExcel now₁ noCrash w0 n0 grid).nextId grid
        = runW now₂ noCrash ⟨initWScan, zeroStats,
            (importWorkersFromExcel now₁ noCrash w0 n0 grid).workers,
            (importWorkersFromExcel now₁ noCrash w0 n0 grid).nextId⟩ 0 grid := rfl
    rw [heq]
    exact ⟨hres.1, by rw [hres.2.1, hres.2.2]; rfl⟩
  · intro grid p0 c0 ni nc hall hnomN hcodeN hid0 hbound0
    have hwf0 : pWF (⟨initPScan, zeroStats, p0, c0, ni, nc⟩ : PState) := ⟨hid0, hbound0⟩
    have hwf1 : pWF (importProductsFromExcel noCrash p0 c0 ni nc grid) :=
      runP_wf noCrash grid ⟨initPScan, zeroStats, p0, c0, ni, nc⟩ 0 hwf0
    have hcover := runP_key_coverage grid ⟨initPScan, zeroStats, p0, c0, ni, nc⟩ 0 []
      hwf0
      (fun pd hpd => Option.isSome_iff_exists.mp (hall pd hpd))
      hnomN hcodeN
      (fun k hk => absurd hk (List.not_mem_nil k))
      (fun k hk => absurd hk (List.not_mem_nil k))
    have hkeys : ∀ pd ∈ pDataRows initPScan 0 grid, ∃ c, codeKey pd = some c
        ∧ hasKeyRec (importProductsFromExcel noCrash p0 c0 ni nc grid).products pd.nom c := by
      intro pd hpd
      obtain ⟨c, hc⟩ := Option.isSome_iff_exists.mp (hall pd hpd)
      have hgetD : (codeKey pd).getD "" = c := by rw [hc]; rfl
      have hmem : (pd.nom, c) ∈ ([] : List (String × String))
          ++ (pDataRows initPScan 0 grid).map (fun pd => (pd.nom, (codeKey pd).getD "")) := by
        simp only [List.nil_append]
        exact List.mem_map.mpr ⟨pd, hpd, by rw [hgetD]⟩
      exact ⟨c, hc, hcover (pd.nom, c) hmem⟩
    have hwf2 : pWF (⟨initPScan, zeroStats,
        (importProductsFromExcel noCrash p0 c0 ni nc grid).products,
        (importProductsFromExcel noCrash p0 c0 ni nc grid).categories,
        (importProductsFromExcel noCrash p0 c0 ni nc grid).nextId,
        (importProductsFromExcel noCrash p0 c0 ni nc grid).nextCatId⟩ : PState) :=
      pWF_of_eq rfl rfl hwf1
    have hres := runP_idem grid
      ⟨initPScan, zeroStats,
        (importProductsFromExcel noCrash p0 c0 ni nc grid).products,
        (importProductsFromExcel noCrash p0 c0 ni nc grid).categories,
        (importProductsFromExcel noCrash p0 c0 ni nc grid).nextId,
        (importProductsFromExcel noCrash p0 c0 ni nc grid).nextCatId⟩ 0
      hwf2 hkeys hcodeN
    have heq : importProductsFromExcel noCrash
        (importProductsFromExcel noCrash p0 c0 ni nc grid).products
        (importProductsFromExcel noCrash p0 c0 ni nc grid).categories
        (importProductsFromExcel noCrash p0 c0 ni nc grid).nextId
        (importProductsFromExcel noCrash p0 c0 ni nc grid).nextCatId grid
        = runP noCrash ⟨initPScan, zeroStats,
            (importProductsFromExcel noCrash p0 c0 ni nc grid).products,
            (importProductsFromExcel noCrash p0 c0 ni nc grid).categories,
            (importProductsFromExcel noCrash p0 c0 ni nc grid).nextId,
            (importProductsFromExcel noCrash p0 c0 ni nc grid).nextCatId⟩ 0 grid := rfl
    rw [heq]
    exact ⟨hres.1, by rw [hres.2.1, hres.2.2]; rfl⟩

/-- C2, witness. -/
theorem reimport_idempotent_witness :
    ((importWorkersFromExcel 0 noCrash
        (importWorkersFromExcel 0 noCrash [] 0
          [[Cell.str "PRENOMS", Cell.str "NOMS", Cell.str "N.I"],
           [Cell.str "A", Cell.str "B", Cell.str "77"]]).workers
        (importWorkersFromExcel 0 noCrash [] 0
          [[Cell.str "PRENOMS", Cell.str "NOMS", Cell.str "N.I"],
           [Cell.str "A", Cell.str "B", Cell.str "77"]]).nextId
        [[Cell.str "PRENOMS", Cell.str "NOMS", Cell.str "N.I"],
         [Cell.str "A", Cell.str "B", Cell.str "77"]]).stats.created = 0
      ∧ (importWorkersFromExcel 0 noCrash
          (importWorkersFromExcel 0 noCrash [] 0
            [[Cell.str "PRENOMS", Cell.str "NOMS", Cell.str "N.I"],
             [Cell.str "A", Cell.str "B", Cell.str "77"]]).workers
          (importWorkersFromExcel 0 noCrash [] 0
            [[Cell.str "PRENOMS", Cell.str "NOMS", Cell.str "N.I"],
             [Cell.str "A", Cell.str "B", Cell.str "77"]]).nextId
          [[Cell.str "PRENOMS", Cell.str "NOMS", Cell.str "N.I"],
           [Cell.str "A", Cell.str "B", Cell.str "77"]]).stats.updated
        = (importWorkersFromExcel 0 noCrash
            (importWorkersFromExcel 0 noCrash [] 0
              [[Cell.str "PRENOMS", Cell.str "NOMS", Cell.str "N.I"],
               [Cell.str "A", Cell.str "B", Cell.str "77"]]).workers
            (importWorkersFromExcel 0 noCrash [] 0
              [[Cell.str "PRENOMS", Cell.str "NOMS", Cell.str "N.I"],
               [Cell.str "A", Cell.str "B", Cell.str "77"]]).nextId
            [[Cell.str "PRENOMS", Cell.str "NOMS", Cell.str "N.I"],
             [Cell.str "A", Cell.str "B", Cell.str "77"]]).stats.total)
      ∧ ((importProductsFromExcel noCrash
          (importProductsFromExcel noCrash [] [] 0 0
            [[Cell.str "NOM DU PRODUIT", Cell.str "CODE"], [Cell.str "P", Cell.str "X"]]).products
          (importProductsFromExcel noCrash [] [] 0 0
            [[Cell.str "NOM DU PRODUIT", Cell.str "CODE"], [Cell.str "P", Cell.str "X"]]).categories
          (importProductsFromExcel noCrash [] [] 0 0
            [[Cell.str "NOM DU PRODUIT", Cell.str "CODE"], [Cell.str "P", Cell.str "X"]]).nextId
          (importProductsFromExcel noCrash [] [] 0 0
            [[Cell.str "NOM DU PRODUIT", Cell.str "CODE"], [Cell.str "P", Cell.str "X"]]).nextCatId
          [[Cell.str "NOM DU PRODUIT", Cell.str "CODE"], [Cell.str "P", Cell.str "X"]]).stats.created = 0
        ∧ (importProductsFromExcel noCrash
            (importProductsFromExcel noCrash [] [] 0 0
              [[Cell.str "NOM DU PRODUIT", Cell.str "CODE"], [Cell.str "P", Cell.str "X"]]).products
            (importProductsFromExcel noCrash [] [] 0 0
              [[Cell.str "NOM DU PRODUIT", Cell.str "CODE"], [Cell.str "P", Cell.str "X"]]).categories
            (importProductsFromExcel noCrash [] [] 0 0
              [[Cell.str "NOM DU PRODUIT", Cell.str "CODE"], [Cell.str "P", Cell.str "X"]]).nextId
            (importProductsFromExcel noCrash [] [] 0 0
              [[Cell.str "NOM DU PRODUIT", Cell.str "CODE"], [Cell.str "P", Cell.str "X"]]).nextCatId
            [[Cell.str "NOM DU PRODUIT", Cell.str "CODE"], [Cell.str "P", Cell.str "X"]]).stats.updated
          = (importProductsFromExcel noCrash
              (importProductsFromExcel noCrash [] [] 0 0
                [[Cell.str "NOM DU PRODUIT", Cell.str "CODE"], [Cell.str "P", Cell.str "X"]]).products
              (importProductsFromExcel noCrash [] [] 0 0
                [[Cell.str "NOM DU PRODUIT", Cell.str "CODE"], [Cell.str "P", Cell.str "X"]]).categories
              (importProductsFromExcel noCrash [] [] 0 0
                [[Cell.str "NOM DU PRODUIT", Cell.str "CODE"], [Cell.str "P", Cell.str "X"]]).nextId
              (importProductsFromExcel noCrash [] [] 0 0
                [[Cell.str "NOM DU PRODUIT", Cell.str "CODE"], [Cell.str "P", Cell.str "X"]]).nextCatId
              [[Cell.str "NOM DU PRODUIT", Cell.str "CODE"], [Cell.str "P", Cell.str "X"]]).stats.total) :=
  ⟨⟨(reimport_idempotent.1 0 0
      [[Cell.str "PRENOMS", Cell.str "NOMS", Cell.str "N.I"],
       [Cell.str "A", Cell.str "B", Cell.str "77"]] [] 0 (by decide)).1,
   (reimport_idempotent.1 0 0
      [[Cell.str "PRENOMS", Cell.str "NOMS", Cell.str "N.I"],
       [Cell.str "A", Cell.str "B", Cell.str "77"]] [] 0 (by decide)).2⟩,
   (reimport_idempotent.2
      [[Cell.str "NOM DU PRODUIT", Cell.str "CODE"], [Cell.str "P", Cell.str "X"]] [] [] 0 0
      (by decide) (by decide) (by decide) (by decide)
      (fun p hp => absurd hp (List.not_mem_nil p))).1,
   (reimport_idempotent.2
      [[Cell.str "NOM DU PRODUIT", Cell.str "CODE"], [Cell.str "P", Cell.str "X"]] [] [] 0 0
      (by decide) (by decide) (by decide) (by decide)
      (fun p hp => absurd hp (List.not_mem_nil p))).2⟩
